import Mathlib

/-!
A shallow embedding of the HIGs-Compiler pipeline (src/src/url_discovery.py,
src/src/pdf_generator.py, src/src/utils.py, src/src/pdf_merger.py) and proofs
about it.  Browser / filesystem effects are modelled as explicit environment
oracles; Python dicts are modelled as insertion-ordered association lists;
file paths are abstracted to numeric artifact identifiers.
-/

namespace HIG

/-! ### String helpers (Python `startswith`, `split`, `in`, `lower`, `title`) -/

/-- Boolean list-prefix test (used to model Python `str.startswith`). -/
def lstPfx : List Char → List Char → Bool
  | [], _ => true
  | _ :: _, [] => false
  | a :: as, b :: bs => a == b && lstPfx as bs

/-- Python `s.startswith(p)`. -/
def strPfx (p s : String) : Bool := lstPfx p.data s.data

/-- Drop the first `n` characters of a string (all prefixes we strip are ASCII,
so character count and byte count coincide with the source's slicing). -/
def strDropChars (s : String) (n : Nat) : String := ⟨s.data.drop n⟩

/-- Does `pat` occur in `text`?  (Python `pat in text`.) -/
def lstHas (pat : List Char) : List Char → Bool
  | [] => pat.isEmpty
  | a :: as => lstPfx pat (a :: as) || lstHas pat as

/-- Python `pat in text` on strings. -/
def strHas (text pat : String) : Bool := lstHas pat.data text.data

/-- Python `s.lower()`. -/
def strLower (s : String) : String := ⟨s.data.map Char.toLower⟩

/-- Split a string on a separator character; auxiliary recursion. -/
def splitCharAux (c : Char) : List Char → List Char → List String
  | [], acc => [⟨acc.reverse⟩]
  | a :: as, acc =>
    if a == c then ⟨acc.reverse⟩ :: splitCharAux c as []
    else splitCharAux c as (a :: acc)

/-- Python `s.split(c)` for a single-character separator. -/
def strSplitChar (c : Char) (s : String) : List String := splitCharAux c s.data []

/-- Python `s.split("#")[0]`: the part of the string before the first `#`. -/
def stripFrag (s : String) : String := ⟨s.data.takeWhile (fun a => !(a == '#'))⟩

/-- Python `s.rstrip("/")`. -/
def rstripSlash (s : String) : String :=
  ⟨(s.data.reverse.dropWhile (fun a => a == '/')).reverse⟩

/-- Python `s.replace("-", " ")`. -/
def dashToSpace (s : String) : String :=
  ⟨s.data.map (fun a => if a == '-' then ' ' else a)⟩

/-- Title-case one word: first character upper, rest lower. -/
def wordTitle : List Char → List Char
  | [] => []
  | a :: as => a.toUpper :: as.map Char.toLower

/-- Python `s.title()` restricted to space-separated words, which is the only
shape it is applied to in the source (a slug with `-` replaced by spaces). -/
def pyTitle (s : String) : String :=
  String.intercalate " " ((strSplitChar ' ' s).map (fun w => ⟨wordTitle w.data⟩))

/-- `[p for p in href.split("/") if p]`. -/
def pathParts (href : String) : List String :=
  (strSplitChar '/' href).filter (fun s => !s.isEmpty)

/-! ### Data model -/

/-- A raw discovered navigation link (`{"href": ..., "title": ...}`). -/
structure Link where
  href : String
  title : String
deriving DecidableEq, Repr

/-- An article record (`{"title": ..., "url": ...}` plus the `page_num`
field that the index builder later writes). -/
structure Article where
  title : String
  url : String
  page_num : Option Nat
deriving DecidableEq, Repr

/-- A sub-section (`{"title": ..., "articles": [...]}`). -/
structure SubSection where
  title : String
  articles : List Article
deriving DecidableEq, Repr

/-- A top-level section (`{"title": ..., "articles": [...], "sub_sections": [...]}`). -/
structure Sect where
  title : String
  articles : List Article
  sub_sections : List SubSection
deriving DecidableEq, Repr

/-! ### Constants from `url_discovery.get_article_urls` -/

def base_url : String := "https://developer.apple.com"

def higRoot : String := "/design/human-interface-guidelines/"

def TOP_LEVEL_ORDER : List String :=
  ["Getting Started", "Foundations", "Patterns", "Components", "Inputs", "Technologies"]

def COMPONENTS_ORDER : List String :=
  ["Content", "Layout and Organization", "Menus and Actions", "Navigation and Search",
   "Presentation", "Selection and Input", "Status", "System Experiences"]

def slug_to_top : List (String × String) :=
  [("getting-started", "Getting Started"), ("foundations", "Foundations"),
   ("patterns", "Patterns"), ("components", "Components"),
   ("inputs", "Inputs"), ("technologies", "Technologies")]

def comp_slug_to_name : List (String × String) :=
  [("content", "Content"), ("layout-and-organization", "Layout and Organization"),
   ("menus-and-actions", "Menus and Actions"),
   ("navigation-and-search", "Navigation and Search"),
   ("presentation", "Presentation"), ("selection-and-input", "Selection and Input"),
   ("status", "Status"), ("system-experiences", "System Experiences")]

def getting_started_slugs : List String :=
  ["designing-for-ios", "designing-for-ipados", "designing-for-macos",
   "designing-for-tvos", "designing-for-visionos", "designing-for-watchos",
   "designing-for-games"]

def foundations_slugs : List String :=
  ["accessibility", "app-icons", "branding", "color", "dark-mode", "icons", "images",
   "immersive-experiences", "inclusion", "layout", "materials", "motion", "privacy",
   "right-to-left", "sf-symbols", "spatial-layout", "typography", "writing"]

def patterns_slugs : List String :=
  ["charting-data", "collaboration-and-sharing", "drag-and-drop", "entering-data",
   "feedback", "file-management", "going-full-screen", "launching", "live-viewing-apps",
   "loading", "managing-accounts", "managing-notifications", "modality", "multitasking",
   "offering-help", "onboarding", "playing-audio", "playing-haptics", "playing-video",
   "printing", "ratings-and-reviews", "searching", "settings", "undo-and-redo",
   "workouts"]

def inputs_slugs : List String :=
  ["action-button", "apple-pencil-and-scribble", "camera-control", "digital-crown",
   "eyes", "focus-and-selection", "game-controls", "gestures",
   "gyroscope-and-accelerometer", "gyro-and-accelerometer", "keyboards",
   "nearby-interactions", "pointing-devices", "remotes"]

def technologies_slugs : List String :=
  ["airplay", "always-on", "app-clips", "apple-pay", "augmented-reality", "carekit",
   "carplay", "game-center", "generative-ai", "healthkit", "homekit", "icloud",
   "id-verifier", "imessage-apps-and-stickers", "in-app-purchase", "live-photos",
   "mac-catalyst", "machine-learning", "maps", "nfc", "photo-editing", "researchkit",
   "shareplay", "shazamkit", "sign-in-with-apple", "siri", "tap-to-pay-on-iphone",
   "voiceover", "wallet"]

def components_articles_by_sub : List (String × List String) :=
  [("Content", ["charts", "image-views", "text-views", "web-views"]),
   ("Layout and Organization",
    ["boxes", "collections", "column-views", "disclosure-controls", "labels",
     "lists-and-tables", "lockups", "outline-views", "split-views", "tab-views"]),
   ("Menus and Actions",
    ["activity-views", "buttons", "context-menus", "dock-menus", "edit-menus",
     "home-screen-quick-actions", "menus", "ornaments", "pop-up-buttons",
     "pull-down-buttons", "the-menu-bar", "toolbars"]),
   ("Navigation and Search",
    ["path-controls", "search-fields", "sidebars", "tab-bars", "token-fields"]),
   ("Presentation",
    ["action-sheets", "alerts", "page-controls", "panels", "popovers", "scroll-views",
     "sheets", "windows"]),
   ("Selection and Input",
    ["color-wells", "combo-boxes", "digit-entry-views", "image-wells", "pickers",
     "segmented-controls", "sliders", "steppers", "text-fields", "toggles",
     "virtual-keyboards"]),
   ("Status", ["activity-rings", "gauges", "progress-indicators", "rating-indicators"]),
   ("System Experiences",
    ["app-shortcuts", "complications", "controls", "live-activities", "notifications",
     "status-bars", "top-shelf", "watch-faces", "widgets"])]

/-- `map_root_slug_to_top` from the source: membership tests against the
per-section slug sets, in source order, first hit wins. -/
def map_root_slug_to_top (slug : String) : Option String :=
  if getting_started_slugs.contains slug then some "Getting Started"
  else if foundations_slugs.contains slug then some "Foundations"
  else if patterns_slugs.contains slug then some "Patterns"
  else if inputs_slugs.contains slug then some "Inputs"
  else if technologies_slugs.contains slug then some "Technologies"
  else none

/-- `urljoin(base_url, rel)` at the source's call sites: every `rel` passed in
is either a site-absolute path starting with `/` (joined onto the host) or an
absolute `http...` URL (returned unchanged). -/
def urljoinApprox (base rel : String) : String :=
  if strPfx "http" rel then rel else base ++ rel

/-! ### Navigation crawler: `run_pass` inside `crawl_nav` (url_discovery.py 99-171)

The browser is an oracle: `render step pos` is the list of anchor elements
(`href` attribute and visible label) present in the virtualized navigator at
scroll offset `pos` during iteration `step`; indexing by the step number lets
the oracle account for DOM changes caused by the toggle expansion performed at
the start of each iteration.  `maxScroll` is `scrollHeight - clientHeight`. -/

structure NavEnv where
  maxScroll : Nat
  render : Nat → Nat → List Link

/-- The mutable state of one `run_pass` invocation.  `steps` counts executed
loop iterations (the Python `for _ in range(400)` index). -/
structure PassState where
  pos : Nat
  discovered : List Link
  seen : List String
  stable : Nat
  last_count : Nat
  steps : Nat
deriving DecidableEq, Repr

/-- Normalization applied to a collected `href` in `run_pass` (lines 129-135):
strip the host, drop other absolute URLs, require the HIG path root. -/
def normNavHref (href : String) : Option String :=
  if strPfx base_url href then
    let h := strDropChars href base_url.data.length
    if strPfx higRoot h then some h else none
  else if strPfx "http" href then none
  else if strPfx higRoot href then some href else none

/-- Record one collected link: first occurrence of a (normalized) href wins,
later duplicates are dropped (lines 143-145). -/
def collectOne (st : PassState) (l : Link) : PassState :=
  match normNavHref l.href with
  | none => st
  | some h =>
    if st.seen.contains h then st
    else { st with seen := h :: st.seen, discovered := st.discovered ++ [⟨h, l.title⟩] }

/-- The edge test from line 148-152: `nearBottom` for a downward pass,
`nearTop` for an upward pass (with the source's 1-pixel tolerance). -/
def atEdge (env : NavEnv) (down : Bool) (pos : Nat) : Bool :=
  if down then env.maxScroll ≤ pos + 1 else pos ≤ 1

/-- The trailing no-new-links check of each iteration (lines 162-166). -/
def postCheck (st : PassState) : PassState :=
  if st.discovered.length == st.last_count then { st with stable := st.stable + 1 }
  else { st with stable := 0, last_count := st.discovered.length }

/-- One iteration of the `run_pass` loop body.  Returns `(halted, state)`;
`halted` is true when the `break` at line 155 fires.  Scrolling by ±400 is
clamped into `[0, maxScroll]` as `scrollBy` is in a real browser. -/
def passStep (env : NavEnv) (down : Bool) (st : PassState) : Bool × PassState :=
  let st1 := (env.render st.steps st.pos).foldl collectOne { st with steps := st.steps + 1 }
  if atEdge env down st1.pos then
    let st2 := { st1 with stable := st1.stable + 1 }
    if 3 ≤ st2.stable then (true, st2) else (false, postCheck st2)
  else
    let st2 := { st1 with pos := if down then min (st1.pos + 400) env.maxScroll
                                 else st1.pos - 400 }
    (false, postCheck st2)

/-- The bounded loop of `run_pass`: at most `fuel` iterations (the source uses
`range(400)`), stopping early when an iteration reports `halted`. -/
def runPassAux (env : NavEnv) (down : Bool) : Nat → PassState → Bool × PassState
  | 0, st => (false, st)
  | n + 1, st =>
    let r := passStep env down st
    if r.1 then r else runPassAux env down n r.2

/-- Entry state of a pass: scroll to the top (downward pass) or bottom
(upward pass); `last_count` is the discovered-list length at entry. -/
def mkPassState (env : NavEnv) (down : Bool) (discovered : List Link)
    (seen : List String) : PassState :=
  { pos := if down then 0 else env.maxScroll, discovered := discovered, seen := seen,
    stable := 0, last_count := discovered.length, steps := 0 }

/-- `run_pass(direction)`: run the loop with the source's 400-iteration bound. -/
def run_pass (env : NavEnv) (down : Bool) (discovered : List Link)
    (seen : List String) : Bool × PassState :=
  runPassAux env down 400 (mkPassState env down discovered seen)

/-- Observation trace of a pass: the discovered-link count after each executed
iteration (stops where the loop stops). -/
def passTrace (env : NavEnv) (down : Bool) : Nat → PassState → List Nat
  | 0, _ => []
  | n + 1, st =>
    let r := passStep env down st
    r.2.discovered.length :: (if r.1 then [] else passTrace env down n r.2)

/-! ### Hierarchy classifier and tree assembler (url_discovery.py 275-507)

`pageCtx url` is the lowercase-ready context text that
`extract_page_context_text` returns after a *successful* `page.goto(url)`;
`none` models a navigation failure (the `except Exception: pass` at lines
421-423), after which no fresh page context is available and the extractor
yields an empty string. -/

structure ClassEnv where
  pageCtx : String → Option String

/-- The value stored per section name in `sections_map`: direct articles plus
the insertion-ordered `_sub_map` (ensure_section also stores `title = name`,
so the key doubles as the title). -/
structure SecData where
  articles : List Article
  sub_map : List (String × List Article)
deriving DecidableEq, Repr

abbrev SectionsMap := List (String × SecData)

/-- `ensure_section`: create an empty entry at the end if the key is absent. -/
def ensure_section (name : String) (m : SectionsMap) : SectionsMap :=
  if (m.lookup name).isSome then m else m ++ [(name, ⟨[], []⟩)]

/-- Update the (first) entry with the given key in place. -/
def setAt (key : String) (f : SecData → SecData) : SectionsMap → SectionsMap
  | [] => []
  | (k, v) :: rest =>
    if k == key then (k, f v) :: rest else (k, v) :: setAt key f rest

/-- `add_article(section_name, title, url)`. -/
def add_article (m : SectionsMap) (name title url : String) : SectionsMap :=
  setAt name (fun sd => { sd with articles := sd.articles ++ [⟨title, url, none⟩] })
    (ensure_section name m)

/-- Append an article to `_sub_map[sub]`, creating the sub entry at the end if
absent (the dict update inside `add_sub_article`). -/
def addToSub (sub : String) (a : Article) : List (String × List Article) →
    List (String × List Article)
  | [] => [(sub, [a])]
  | (k, v) :: rest =>
    if k == sub then (k, v ++ [a]) :: rest else (k, v) :: addToSub sub a rest

/-- `add_sub_article(section_name, sub_name, title, url)`. -/
def add_sub_article (m : SectionsMap) (name sub title url : String) : SectionsMap :=
  setAt name (fun sd => { sd with sub_map := addToSub sub ⟨title, url, none⟩ sd.sub_map })
    (ensure_section name m)

/-- `detect_top_and_sub(text_lower)`: first canonical top-level name occurring
in the text; the sub-section is only sought when that name is Components. -/
def detect_top_and_sub (t : String) : Option String × Option String :=
  let top := TOP_LEVEL_ORDER.find? (fun n => strHas t (strLower n))
  let sub := if top == some "Components" then
               COMPONENTS_ORDER.find? (fun n => strHas t (strLower n))
             else none
  (top, sub)

/-- The body of the classification loop (lines 394-467) for one discovered
link, acting on `(seen_urls_for_classification, sections_map)`. -/
def classifyOne (env : ClassEnv) (acc : List String × SectionsMap) (item : Link) :
    List String × SectionsMap :=
  let href := stripFrag item.href
  let full_url := urljoinApprox base_url href
  if acc.1.contains full_url then acc
  else
    let seen := full_url :: acc.1
    let m := acc.2
    match pathParts href with
    | p0 :: p1 :: rest =>
      if p0 == "design" && p1 == "human-interface-guidelines" then
        match rest.dropWhile (fun s => s == "human-interface-guidelines") with
        | [] => (seen, m)
        | slug :: tail =>
          -- skip top-level overview pages and Components sub-section overview pages
          if (slug_to_top.lookup slug).isSome && tail.isEmpty then (seen, m)
          else if slug == "components" && tail.length == 1 then (seen, m)
          else
            let ctx := strLower ((env.pageCtx full_url).getD "")
            let det := detect_top_and_sub ctx
            let top_name : Option String :=
              match det.1 with
              | some t => some t
              | none =>
                if (slug_to_top.lookup slug).isSome && 1 ≤ tail.length then
                  slug_to_top.lookup slug
                else if (components_articles_by_sub.find?
                          (fun p => p.2.contains slug)).isSome then
                  some "Components"
                else map_root_slug_to_top slug
            match top_name with
            | none => (seen, m)
            | some top =>
              if top == "Components" then
                let sub_name : Option String :=
                  match det.2 with
                  | some s => some s
                  | none =>
                    if slug == "components" && 1 ≤ tail.length then
                      match tail with
                      | t3 :: _ =>
                        some ((comp_slug_to_name.lookup t3).getD
                                (pyTitle (dashToSpace t3)))
                      | [] => none
                    else
                      match components_articles_by_sub.find?
                              (fun p => p.2.contains slug) with
                      | some p => some p.1
                      | none => none
                match sub_name with
                | some s => (seen, add_sub_article m top s item.title full_url)
                | none => (seen, add_article m top item.title full_url)
              else (seen, add_article m top item.title full_url)
      else (seen, m)
    | _ => (seen, m)

/-- The sub-section list emitted for the Components section (lines 478-490):
canonical order first, then unrecognized names in first-seen order. -/
def buildComponentsSubs (sd : SecData) : List SubSection :=
  COMPONENTS_ORDER.filterMap
    (fun sub => (sd.sub_map.lookup sub).map (fun arts => SubSection.mk sub arts))
  ++ (sd.sub_map.filter (fun p => !COMPONENTS_ORDER.contains p.1)).map
      (fun p => SubSection.mk p.1 p.2)

/-- Convert `sections_map` to the ordered section list (lines 469-507):
known top-level names in canonical order (only Components receives its
`_sub_map` as sub-sections; for other known names `sub_sections` stays `[]`),
then unexpected sections in first-seen order with their raw `_sub_map`. -/
def buildSections (m : SectionsMap) : List Sect :=
  TOP_LEVEL_ORDER.filterMap
    (fun name => (m.lookup name).map
      (fun sd =>
        if name == "Components" then Sect.mk name sd.articles (buildComponentsSubs sd)
        else Sect.mk name sd.articles []))
  ++ (m.filter (fun p => !TOP_LEVEL_ORDER.contains p.1)).map
      (fun p => Sect.mk p.1 p.2.articles (p.2.sub_map.map (fun q => SubSection.mk q.1 q.2)))

/-- Classification of every discovered link followed by tree assembly
(the tail of `get_article_urls`). -/
def classify_and_assemble (env : ClassEnv) (links : List Link) : List Sect :=
  buildSections (links.foldl (classifyOne env) ([], [])).2

/-- The multiset of article URLs stored in `sections_map`. -/
def secUrls (sd : SecData) : List String :=
  sd.articles.map Article.url ++ sd.sub_map.flatMap (fun q => q.2.map Article.url)

def mapUrls (m : SectionsMap) : List String :=
  m.flatMap (fun p => secUrls p.2)

/-- The multiset of article URLs appearing in an assembled tree. -/
def treeUrls (secs : List Sect) : List String :=
  secs.flatMap (fun s => s.articles.map Article.url
    ++ s.sub_sections.flatMap (fun ss => ss.articles.map Article.url))

/-! ### Artifact renderer: `generate_pdfs` (pdf_generator.py 91-189)

Environment oracles: `visit url` is the content hash computed by
`calculate_content_hash` after `page.goto(url)` succeeds; `none` models any
exception raised up to and including the hash computation (navigation
timeout etc. — the `except` at lines 163-164 catches it).  `pdfOk url` says
whether the subsequent render (`page.pdf`) succeeds, and `pages url` is the
page count `get_pdf_page_count` reads from the artifact rendered for `url`.
File paths (produced fresh by `get_unique_filename`) are abstracted to
consecutive numeric artifact identifiers. -/

structure RenderEnv where
  visit : String → Option String
  pdfOk : String → Bool
  pages : String → Nat

/-- `url → (artifact id, page count)`, an insertion-ordered dict
(`generated_files_map`, and the same shape for `hash_to_file`). -/
abbrev GenMap := List (String × Nat × Nat)

def lookupG (u : String) (g : GenMap) : Option (Nat × Nat) := g.lookup u

/-- Python dict assignment `d[k] = v`: replace in place or append. -/
def setG (u : String) (v : Nat × Nat) : GenMap → GenMap
  | [] => [(u, v)]
  | (k, w) :: rest => if k == u then (k, v) :: rest else (k, w) :: setG u v rest

/-- State threaded through the render loop.  `renderedFor` is a specification
ghost recording the urls for which the render branch (a fresh `page.pdf`
call) actually ran. -/
structure GenState where
  files : GenMap
  hashes : GenMap
  nextId : Nat
  renderedFor : List String
deriving DecidableEq, Repr

/-- One iteration of the render loop (lines 116-167). -/
def genStep (env : RenderEnv) (st : GenState) (a : Article) : GenState :=
  match env.visit a.url with
  | none => st
  | some h =>
    match st.hashes.lookup h with
    | some fc => { st with files := setG a.url fc st.files }
    | none =>
      if env.pdfOk a.url then
        let fc := (st.nextId, env.pages a.url)
        { files := setG a.url fc st.files, hashes := st.hashes ++ [(h, fc)],
          nextId := st.nextId + 1, renderedFor := st.renderedFor ++ [a.url] }
      else st

/-- The flattening at lines 96-103 (also the traversal order shared by the
index builder and the merger): per section, direct articles first, then each
sub-section's articles. -/
def flattenArticles (secs : List Sect) : List Article :=
  secs.flatMap (fun s => s.articles ++ s.sub_sections.flatMap SubSection.articles)

/-- The render loop of `generate_pdfs` (cover/index rendering is modelled by
the page-count parameters of the downstream stages). -/
def generate_pdfs (env : RenderEnv) (secs : List Sect) : GenState :=
  (flattenArticles secs).foldl (genStep env) ⟨[], [], 0, []⟩

/-! ### Pagination / index builder: `create_index_html` (utils.py 50-87) -/

/-- `max(1, total_articles // 45 + 1)`. -/
def estimated_index_pages (secs : List Sect) : Nat :=
  max 1 ((flattenArticles secs).length / 45 + 1)

/-- Page-number assignment over one article list (the loop bodies at
utils.py 71-77 and 80-87): returns the updated articles, the updated
`processed_urls`, and the advanced `current_page`. -/
def assignArts (g : GenMap) : List Article → List String → Nat →
    List Article × List String × Nat
  | [], proc, cur => ([], proc, cur)
  | a :: rest, proc, cur =>
    if proc.contains a.url then
      let r := assignArts g rest proc cur
      (a :: r.1, r.2)
    else
      match lookupG a.url g with
      | some fc =>
        let r := assignArts g rest (a.url :: proc) (cur + fc.2)
        ({ a with page_num := some cur } :: r.1, r.2)
      | none =>
        let r := assignArts g rest proc cur
        (a :: r.1, r.2)

/-- Assignment over a section's sub-sections, in order. -/
def assignSubs (g : GenMap) : List SubSection → List String → Nat →
    List SubSection × List String × Nat
  | [], proc, cur => ([], proc, cur)
  | ss :: rest, proc, cur =>
    let r := assignArts g ss.articles proc cur
    let r2 := assignSubs g rest r.2.1 r.2.2
    ({ ss with articles := r.1 } :: r2.1, r2.2)

/-- Assignment over one section: direct articles, then each sub-section. -/
def assignSec (g : GenMap) (s : Sect) (proc : List String) (cur : Nat) :
    Sect × List String × Nat :=
  let d := assignArts g s.articles proc cur
  let r := assignSubs g s.sub_sections d.2.1 d.2.2
  ({ s with articles := d.1, sub_sections := r.1 }, r.2)

/-- Assignment over the section list. -/
def assignSecs (g : GenMap) : List Sect → List String → Nat →
    List Sect × List String × Nat
  | [], proc, cur => ([], proc, cur)
  | s :: rest, proc, cur =>
    let r := assignSec g s proc cur
    let r2 := assignSecs g rest r.2.1 r.2.2
    (r.1 :: r2.1, r2.2)

/-- The page-assignment effect of `create_index_html`: starting after the
cover plus the *estimated* index page count, write `page_num` into every
mapped article in merge order.  (The HTML string it also returns only reads
these fields and is not needed by any claim.)  Returns the updated sections
and the final `current_page`. -/
def create_index_html (secs : List Sect) (g : GenMap) (cover_page_count : Nat) :
    List Sect × Nat :=
  let r := assignSecs g secs [] (cover_page_count + estimated_index_pages secs)
  (r.1, r.2.2)

/-! ### Merger: `merge_pdfs` (pdf_merger.py 5-91)

Filesystem existence is modelled as: an artifact referenced by
`generated_files_map` (or the cover/index, represented by their page counts)
exists — which is the state `merge_pdfs` runs in, since the renderer wrote
those files and cleanup happens only afterwards. -/

/-- One outline (bookmark) entry: nesting depth (0 = section, 1 = direct
article or sub-section, 2 = sub-section article), title, zero-based target
page.  `aurl` is a specification ghost: for an article-level entry, the url
of the article it addresses (`none` for section/sub-section headers). -/
structure OEntry where
  depth : Nat
  title : String
  page : Nat
  aurl : Option String
deriving DecidableEq, Repr

/-- Outline entries and offset arithmetic for one article list
(pdf_merger.py 54-58 and 63-67). -/
def outlineArts (g : GenMap) (depth : Nat) : List Article → Nat → List OEntry × Nat
  | [], cur => ([], cur)
  | a :: rest, cur =>
    match lookupG a.url g with
    | some fc =>
      let r := outlineArts g depth rest (cur + fc.2)
      (⟨depth, a.title, cur, some a.url⟩ :: r.1, r.2)
    | none => outlineArts g depth rest cur

/-- Outline entries for the sub-sections of one section (lines 61-67):
per sub-section a header at the current page, then its articles. -/
def outlineSubs (g : GenMap) : List SubSection → Nat → List OEntry × Nat
  | [], cur => ([], cur)
  | ss :: rest, cur =>
    let r := outlineArts g 2 ss.articles cur
    let r2 := outlineSubs g rest r.2
    (⟨1, ss.title, cur, none⟩ :: (r.1 ++ r2.1), r2.2)

/-- Outline for one section (lines 48-67): a section header at the current
page, its direct articles, then the sub-sections. -/
def outlineSec (g : GenMap) (s : Sect) (cur : Nat) : List OEntry × Nat :=
  let d := outlineArts g 1 s.articles cur
  let r := outlineSubs g s.sub_sections d.2
  (⟨0, s.title, cur, none⟩ :: (d.1 ++ r.1), r.2)

/-- Outline over the section list. -/
def outlineSecs (g : GenMap) : List Sect → Nat → List OEntry × Nat
  | [], cur => ([], cur)
  | s :: rest, cur =>
    let r := outlineSec g s cur
    let r2 := outlineSecs g rest r.2
    (r.1 ++ r2.1, r2.2)

/-- The whole outline, starting at `cover_pages + index_pages` (line 46). -/
def mergeOutline (secs : List Sect) (g : GenMap) (start : Nat) : List OEntry × Nat :=
  outlineSecs g secs start

/-- `files_to_append` (lines 29-39): the content artifacts, one append per
article occurrence that has a map entry, in tree order. -/
def files_to_append (secs : List Sect) (g : GenMap) : List Nat :=
  secs.flatMap (fun s =>
    s.articles.filterMap (fun a => (lookupG a.url g).map Prod.fst)
    ++ s.sub_sections.flatMap (fun ss =>
        ss.articles.filterMap (fun a => (lookupG a.url g).map Prod.fst)))

/-- The merged document: the appended content artifacts (after cover and
index) and the outline. -/
structure MergeOut where
  files : List Nat
  outline : List OEntry
deriving DecidableEq, Repr

/-- `merge_pdfs`: `None` when `generated_files_map` is empty (line 9-11,
before anything is written); otherwise the merged document.  `cover_pages`
and `index_pages` are the page counts of the cover and index artifacts. -/
def merge_pdfs (secs : List Sect) (g : GenMap) (cover_pages index_pages : Nat) :
    Option MergeOut :=
  if g.isEmpty then none
  else some ⟨files_to_append secs g, (mergeOutline secs g (cover_pages + index_pages)).1⟩

/-! ### Specification-side helpers for the page-offset claims -/

/-- The per-occurrence `(url, artifact id, page count)` list of a traversal. -/
def artEntries (g : GenMap) (arts : List Article) : List (String × Nat × Nat) :=
  arts.filterMap (fun a => (lookupG a.url g).map (fun fc => (a.url, fc)))

/-- All mapped article occurrences of a tree, in the shared traversal order. -/
def occEntries (secs : List Sect) (g : GenMap) : List (String × Nat × Nat) :=
  artEntries g (flattenArticles secs)

/-- Cumulative offsets: each occurrence is placed at the running total and
advances it by its own page count. -/
def cumFrom (start : Nat) : List (String × Nat × Nat) → List (String × Nat)
  | [] => []
  | (u, _, c) :: rest => (u, start) :: cumFrom (start + c) rest

/-- The `(url, page)` pairs written into an article list. -/
def artsPages (arts : List Article) : List (String × Nat) :=
  arts.filterMap (fun a => a.page_num.map (fun n => (a.url, n)))

/-- The `(url, page)` pairs the index builder wrote into a tree. -/
def assignedPages (secs : List Sect) : List (String × Nat) :=
  artsPages (flattenArticles secs)

/-- The `(url, page)` pairs of the article-level outline entries. -/
def outlinePages (entries : List OEntry) : List (String × Nat) :=
  entries.filterMap (fun e => e.aurl.map (fun u => (u, e.page)))

/-- Erase the `page_num` annotation of one article. -/
def eraseA (a : Article) : Article := { a with page_num := none }

/-- Erase annotations in one sub-section. -/
def eraseSS (ss : SubSection) : SubSection := { ss with articles := ss.articles.map eraseA }

/-- Erase annotations in one section. -/
def eraseSec (s : Sect) : Sect :=
  { s with articles := s.articles.map eraseA, sub_sections := s.sub_sections.map eraseSS }

/-- Erase every `page_num` annotation (to state the frame property of the
index builder: everything except `page_num` is untouched). -/
def erasePages (secs : List Sect) : List Sect := secs.map eraseSec

/-- Remove every article with the given url from a tree (used to state that a
failed article contributes nothing to the merged document). -/
def removeUrl (u : String) (secs : List Sect) : List Sect :=
  secs.map (fun s =>
    { s with articles := s.articles.filter (fun a => !(a.url == u)),
             sub_sections := s.sub_sections.map (fun ss =>
               { ss with articles := ss.articles.filter (fun a => !(a.url == u)) }) })

/-! ### Per-section fallback crawl (url_discovery.py 202-273)

`rawLinks url` is the anchor list `collect_links_from_page` would gather
after a successful `page.goto(url)`; `none` models the `goto` (or the
collection it guards in the same `try`) raising — the `except` clauses at
lines 238-239 and 272-273. -/

structure CrawlEnv where
  rawLinks : String → Option (List Link)

/-- Per-anchor normalization inside `collect_links_from_page` (lines
208-222): strip the host, drop other absolute URLs. -/
def normCollect (l : Link) : Option Link :=
  if strPfx base_url l.href then some ⟨strDropChars l.href base_url.data.length, l.title⟩
  else if strPfx "http" l.href then none
  else some l

/-- `add_if_new(items)` (lines 226-231): dedup on the fragment-stripped href,
require the HIG path root, append the *original* item. -/
def add_if_new (st : List Link × List String) (items : List Link) :
    List Link × List String :=
  items.foldl
    (fun acc it =>
      let href := stripFrag it.href
      if !acc.2.contains href && strPfx higRoot href then
        (acc.1 ++ [it], href :: acc.2)
      else acc)
    st

/-- `list(dict.fromkeys(xs))`: dedup preserving first-seen order. -/
def dedupKeepFirst (l : List String) : List String :=
  l.foldl (fun acc s => if acc.contains s then acc else acc ++ [s]) []

/-- Visiting the Components sub-section overview pages (lines 246-273). -/
def visitCompSubs (env : CrawlEnv) (items : List Link)
    (st : List Link × List String) : List Link × List String :=
  let subLinks1 := dedupKeepFirst (items.filterMap (fun it =>
    let ps := pathParts it.href
    if 4 ≤ ps.length && ps.get? 2 == some "components" then
      some (rstripSlash (stripFrag it.href))
    else none))
  let subLinks := comp_slug_to_name.foldl
    (fun acc p =>
      let cand := "/design/human-interface-guidelines/components/" ++ p.1
      if acc.contains cand then acc else acc ++ [cand])
    subLinks1
  subLinks.foldl
    (fun st2 sub_href =>
      let ps := pathParts sub_href
      if ps.length == 4 && ps.get? 2 == some "components" then
        match env.rawLinks (urljoinApprox base_url (sub_href ++ "/")) with
        | none => st2
        | some raw2 => add_if_new st2 (raw2.filterMap normCollect)
      else st2)
    st

/-- One iteration of the per-section crawl loop (lines 234-273): a failed
`goto` on the section landing page skips the section (`continue`). -/
def sectionStep (env : CrawlEnv) (st : List Link × List String)
    (e : String × String) : List Link × List String :=
  let url := urljoinApprox base_url ("/design/human-interface-guidelines/" ++ e.1 ++ "/")
  match env.rawLinks url with
  | none => st
  | some raw =>
    let items := raw.filterMap normCollect
    let st1 := add_if_new st items
    if e.1 == "components" then visitCompSubs env items st1 else st1

/-- The whole per-section crawl over `slug_to_top`. -/
def crawlSections (env : CrawlEnv) (st : List Link × List String) :
    List Link × List String :=
  slug_to_top.foldl (sectionStep env) st

/-! ### Concrete instances used by counterexamples and witnesses -/

/-- A realizable navigator: two links exist in the virtualized DOM, one at the
top, one only rendered at the very bottom (2000 px away); nothing in between. -/
def cexNavEnv : NavEnv :=
  { maxScroll := 2000,
    render := fun _ pos =>
      if pos == 0 then [⟨"/design/human-interface-guidelines/color", "Color"⟩]
      else if pos == 2000 then [⟨"/design/human-interface-guidelines/buttons", "Buttons"⟩]
      else [] }

/-- The discovered-count trace of a full pass started from a given seed. -/
def fullTrace (env : NavEnv) (down : Bool) (d : List Link) (s : List String) : List Nat :=
  passTrace env down 400 (mkPassState env down d s)

/-- Formalization of the claimed stopping rule: whenever three consecutive
steps yield no new links (four equal successive trace entries, i.e. steps
`i+2`, `i+3`, `i+4` added nothing), the pass stops there — it executes at
most `i+4` steps. -/
def claimStopsOnStability : Prop :=
  ∀ (env : NavEnv) (down : Bool) (d : List Link) (s : List String) (i a : Nat),
    (fullTrace env down d s).get? i = some a →
    (fullTrace env down d s).get? (i + 1) = some a →
    (fullTrace env down d s).get? (i + 2) = some a →
    (fullTrace env down d s).get? (i + 3) = some a →
    (fullTrace env down d s).length ≤ i + 4

/-- A classification environment in which every article page fails to load. -/
def noCtx : ClassEnv := ⟨fun _ => none⟩

def colorLink : Link := ⟨"/design/human-interface-guidelines/color", "Color"⟩

def colorUrl : String := "https://developer.apple.com/design/human-interface-guidelines/color"

/-- Formalization of the claimed skip rule for classification: a discovered
link whose article page cannot be loaded contributes nothing to the
classification stage's output tree. -/
def claimSkipOnLoadFail : Prop :=
  ∀ (env : ClassEnv) (link : Link),
    env.pageCtx (urljoinApprox base_url (stripFrag link.href)) = none →
    treeUrls (classify_and_assemble env [link]) = []

/-- A crawl environment in which every page load fails. -/
def noPages : CrawlEnv := ⟨fun _ => none⟩

/-- One-section, one-article tree for the offset counterexample. -/
def cexTree : List Sect := [⟨"S", [⟨"T", "u", none⟩], []⟩]

/-- Its artifact map: the article's artifact has 3 pages. -/
def cexMap : GenMap := [("u", (0, 3))]

/-- Two distinct URLs whose pages hash identically. -/
def dupEnv : RenderEnv :=
  { visit := fun u => if u == "https://a" || u == "https://b" then some "h77" else none,
    pdfOk := fun _ => true,
    pages := fun _ => 4 }

def dupTree : List Sect := [⟨"S", [⟨"A", "https://a", none⟩, ⟨"B", "https://b", none⟩], []⟩]

/-- A render environment where exactly `https://bad` fails to render. -/
def failEnv : RenderEnv :=
  { visit := fun u => if u == "https://bad" then none else some u,
    pdfOk := fun _ => true,
    pages := fun _ => 2 }

def goodArt : Article := ⟨"Good", "https://good", none⟩

def badArt : Article := ⟨"Bad", "https://bad", none⟩

/-- The tree containing the failing article. -/
def failTree : List Sect := [⟨"S", [goodArt, badArt], []⟩]

/-- A map with an entry for the good article only. -/
def failMap : GenMap := [("https://good", (0, 2))]

/-- A tree in which two distinct URLs share one artifact (id 0, 3 pages). -/
def sharedTree : List Sect := [⟨"S", [⟨"A", "u1", none⟩, ⟨"B", "u2", none⟩], []⟩]

def sharedMap : GenMap := [("u1", (0, 3)), ("u2", (0, 3))]

/-- Components data with one unknown sub-section name seen first. -/
def cexComponentsData : SecData :=
  ⟨[], [("Zeta", [⟨"Z", "https://z1", none⟩]),
        ("Content", [⟨"Charts", "https://c1", none⟩])]⟩

/-- The section the assembler emits for `cexComponentsData`. -/
def cexComponentsSect : Sect :=
  ⟨"Components", [],
   [⟨"Content", [⟨"Charts", "https://c1", none⟩]⟩,
    ⟨"Zeta", [⟨"Z", "https://z1", none⟩]⟩]⟩

/-- A sections map discovered in the order Patterns, Foundations, Components,
with one unknown sub-section name under Components. -/
def cexSectionsMap : SectionsMap :=
  [("Patterns", ⟨[⟨"Searching", "https://p1", none⟩], []⟩),
   ("Foundations", ⟨[⟨"Color", "https://f1", none⟩], []⟩),
   ("Components", cexComponentsData)]

/-! ### Invariants and specification-side observations -/

/-- Render-loop invariant: every url that triggered a render has a hash that
is now in `hash_to_file`; no url rendered twice; renders are injective on
content hashes (each hash rendered at most once). -/
def genInv (env : RenderEnv) (st : GenState) : Prop :=
  (∀ u ∈ st.renderedFor, ∃ h, env.visit u = some h ∧ (st.hashes.lookup h).isSome)
  ∧ st.renderedFor.Nodup
  ∧ ∀ u v, u ∈ st.renderedFor → v ∈ st.renderedFor → env.visit u = env.visit v → u = v

/-- Discovery invariant of `run_pass`: collected hrefs are pairwise distinct
(first occurrence wins) and each one is registered in `seen_hrefs`. -/
def passInv (st : PassState) : Prop :=
  ((st.discovered.map Link.href).Nodup) ∧ ∀ l ∈ st.discovered, l.href ∈ st.seen

/-- Classification-loop invariant: the urls stored in `sections_map` are
pairwise distinct and all registered in `seen_urls_for_classification`; the
section keys and each section's sub-section keys are pairwise distinct. -/
def clsInv (acc : List String × SectionsMap) : Prop :=
  (mapUrls acc.2).Nodup
  ∧ (∀ u ∈ mapUrls acc.2, u ∈ acc.1)
  ∧ ((acc.2.map Prod.fst).Nodup)
  ∧ ∀ p ∈ acc.2, ((p.2.sub_map.map Prod.fst).Nodup)

/-- Total page count of a run of per-occurrence entries. -/
def sumC (l : List (String × Nat × Nat)) : Nat := (l.map (fun e => e.2.2)).sum

/-- Formalization of the claimed agreement between the index builder's page
numbers and the merger's outline offsets.  `ip` is the *actual* page count of
the rendered index artifact (the merger reads it with `get_pdf_page_count`);
it is a free quantity of the run, so the claimed agreement must hold for
every value it can take. -/
def claimIndexMergerAgree : Prop :=
  ∀ (secs : List Sect) (g : GenMap) (cover ip : Nat),
    ((flattenArticles secs).map Article.url).Nodup →
    (∀ a ∈ flattenArticles secs, a.page_num = none) →
    assignedPages (create_index_html secs g cover).1
      = outlinePages (mergeOutline secs g (cover + ip)).1

/-! ## Lemmas -/

theorem contains_iff {α : Type} [BEq α] [LawfulBEq α] (l : List α) (a : α) :
    l.contains a = true ↔ a ∈ l := List.elem_iff

theorem lookup_cons_self {β : Type} (rest : List (String × β)) (k : String) (v : β) :
    ((k, v) :: rest).lookup k = some v := by
  simp [List.lookup_cons]

theorem lookup_cons_ne {β : Type} (rest : List (String × β)) (k k' : String) (v : β)
    (h : ¬k = k') : ((k', v) :: rest).lookup k = rest.lookup k := by
  have hb : (k == k') = false := by simpa using h
  simp [List.lookup_cons, hb]

theorem lookup_isSome_iff {β : Type} (m : List (String × β)) (k : String) :
    (m.lookup k).isSome ↔ k ∈ m.map Prod.fst := by
  induction m with
  | nil => simp
  | cons p rest ih =>
    rcases p with ⟨k', v⟩
    by_cases h : k = k'
    · subst h
      simp [lookup_cons_self]
    · rw [lookup_cons_ne _ _ _ _ h]
      simp [ih, h]

theorem lookup_append_some {β : Type} (m m' : List (String × β)) (k : String) (v : β)
    (h : m.lookup k = some v) : (m ++ m').lookup k = some v := by
  induction m with
  | nil => simp at h
  | cons p rest ih =>
    rcases p with ⟨k', w⟩
    by_cases hk : k = k'
    · subst hk
      rw [lookup_cons_self] at h
      simpa [lookup_cons_self] using h
    · rw [lookup_cons_ne _ _ _ _ hk] at h
      rw [List.cons_append, lookup_cons_ne _ _ _ _ hk]
      exact ih h

theorem lookup_append_none {β : Type} (m m' : List (String × β)) (k : String)
    (h : m.lookup k = none) : (m ++ m').lookup k = m'.lookup k := by
  induction m with
  | nil => simp
  | cons p rest ih =>
    rcases p with ⟨k', w⟩
    by_cases hk : k = k'
    · subst hk
      rw [lookup_cons_self] at h
      simp at h
    · rw [lookup_cons_ne _ _ _ _ hk] at h
      rw [List.cons_append, lookup_cons_ne _ _ _ _ hk]
      exact ih h

theorem lookup_extract {β : Type} (m : List (String × β)) (k : String) (v : β)
    (hnd : (m.map Prod.fst).Nodup) (h : m.lookup k = some v) :
    ∃ m₁ m₂, m = m₁ ++ (k, v) :: m₂ ∧ k ∉ m₁.map Prod.fst ∧ k ∉ m₂.map Prod.fst := by
  induction m with
  | nil => simp at h
  | cons p rest ih =>
    rcases p with ⟨k', w⟩
    simp only [List.map_cons, List.nodup_cons] at hnd
    by_cases hk : k = k'
    · subst hk
      rw [lookup_cons_self] at h
      obtain rfl : w = v := by injection h
      exact ⟨[], rest, by simp, by simp, hnd.1⟩
    · rw [lookup_cons_ne _ _ _ _ hk] at h
      obtain ⟨m₁, m₂, he, h1, h2⟩ := ih hnd.2 h
      refine ⟨(k', w) :: m₁, m₂, by simp [he], ?_, h2⟩
      simp [h1, hk]

theorem subperm_append {α : Type} {l₁ l₂ r₁ r₂ : List α}
    (h : l₁.Subperm l₂) (h' : r₁.Subperm r₂) : (l₁ ++ r₁).Subperm (l₂ ++ r₂) := by
  obtain ⟨u, hu, hs⟩ := h
  obtain ⟨u', hu', hs'⟩ := h'
  exact ⟨u ++ u', hu.append hu', hs.append hs'⟩

theorem flatMap_filterMap {α β γ : Type} (f : α → Option β) (g : β → List γ) :
    ∀ l : List α, (l.filterMap f).flatMap g = (l.filterMap (fun x => (f x).map g)).flatten
  | [] => rfl
  | a :: rest => by
    cases h : f a <;>
      simp [List.filterMap_cons, h, flatMap_filterMap f g rest]

/-! ## Claim C6: empty ArtifactMap ⇒ merge failure -/

/-- **C6** (confirmed).  If the url → artifact map is empty, `merge_pdfs`
returns the failure value `none` before any output is produced (the model's
`MergeOut` is the only written output, and `none` carries no output). -/
theorem C6_empty_map_merge_returns_none :
    ∀ (secs : List Sect) (cover_pages index_pages : Nat),
      merge_pdfs secs [] cover_pages index_pages = none :=
  fun _ _ _ => rfl

/-! ## Claim C9: the index builder writes only `page_num` -/

theorem assignArts_erase (g : GenMap) :
    ∀ (arts : List Article) (proc : List String) (cur : Nat),
      ((assignArts g arts proc cur).1).map eraseA = arts.map eraseA := by
  intro arts
  induction arts with
  | nil => intro proc cur; rfl
  | cons a rest ih =>
    intro proc cur
    simp only [assignArts]
    split
    · simp [ih]
    · split <;> simp [ih, eraseA]

theorem assignSubs_erase (g : GenMap) :
    ∀ (sss : List SubSection) (proc : List String) (cur : Nat),
      ((assignSubs g sss proc cur).1).map eraseSS = sss.map eraseSS := by
  intro sss
  induction sss with
  | nil => intro proc cur; rfl
  | cons ss rest ih =>
    intro proc cur
    simp only [assignSubs, List.map_cons]
    refine congrArg₂ _ ?_ (ih _ _)
    simp [eraseSS, assignArts_erase]

theorem assignSec_erase (g : GenMap) (s : Sect) (proc : List String) (cur : Nat) :
    eraseSec (assignSec g s proc cur).1 = eraseSec s := by
  simp [assignSec, eraseSec, assignArts_erase, assignSubs_erase]

theorem assignSecs_erase (g : GenMap) :
    ∀ (secs : List Sect) (proc : List String) (cur : Nat),
      ((assignSecs g secs proc cur).1).map eraseSec = secs.map eraseSec := by
  intro secs
  induction secs with
  | nil => intro proc cur; rfl
  | cons s rest ih =>
    intro proc cur
    simp only [assignSecs, List.map_cons]
    exact congrArg₂ _ (assignSec_erase g s _ _) (ih _ _)

/-- **C9** (confirmed).  The index builder's in-place annotation changes
nothing but `page_num`: erasing the annotations recovers the input tree
exactly — every title, url, article order and the section/sub-section
structure are untouched.  (The merger, `merge_pdfs`, is a pure reader of the
tree in this embedding, exactly as in the source, so it mutates nothing.) -/
theorem C9_only_page_num_is_written :
    ∀ (secs : List Sect) (g : GenMap) (cover : Nat),
      erasePages (create_index_html secs g cover).1 = erasePages secs := by
  intro secs g cover
  simp [create_index_html, erasePages, assignSecs_erase]

/-! ## Claim C5: termination and stopping rule of `run_pass` -/

theorem collectOne_frame (s : PassState) (l : Link) :
    (collectOne s l).steps = s.steps ∧ (collectOne s l).pos = s.pos
    ∧ (collectOne s l).stable = s.stable ∧ (collectOne s l).last_count = s.last_count := by
  unfold collectOne
  cases normNavHref l.href
  · exact ⟨rfl, rfl, rfl, rfl⟩
  · simp only
    split <;> simp

theorem collectFold_frame :
    ∀ (links : List Link) (s : PassState),
      (links.foldl collectOne s).steps = s.steps ∧ (links.foldl collectOne s).pos = s.pos
      ∧ (links.foldl collectOne s).stable = s.stable
      ∧ (links.foldl collectOne s).last_count = s.last_count
  | [], s => ⟨rfl, rfl, rfl, rfl⟩
  | l :: rest, s => by
    have h1 := collectOne_frame s l
    have h2 := collectFold_frame rest (collectOne s l)
    simp only [List.foldl_cons]
    exact ⟨h2.1.trans h1.1, h2.2.1.trans h1.2.1, h2.2.2.1.trans h1.2.2.1,
      h2.2.2.2.trans h1.2.2.2⟩

theorem postCheck_frame (s : PassState) :
    (postCheck s).steps = s.steps ∧ (postCheck s).pos = s.pos := by
  unfold postCheck
  split <;> simp

theorem passStep_steps (env : NavEnv) (down : Bool) (st : PassState) :
    ((passStep env down st).2).steps = st.steps + 1 := by
  unfold passStep
  dsimp only
  set st1 := List.foldl collectOne { st with steps := st.steps + 1 } (env.render st.steps st.pos)
    with hst1
  have hsteps : st1.steps = st.steps + 1 :=
    (collectFold_frame (env.render st.steps st.pos) { st with steps := st.steps + 1 }).1
  by_cases hedge : atEdge env down st1.pos = true
  · rw [if_pos hedge]
    by_cases hst : 3 ≤ st1.stable + 1
    · rw [if_pos hst]
      exact hsteps
    · rw [if_neg hst]
      exact (postCheck_frame _).1.trans hsteps
  · rw [if_neg hedge]
    exact (postCheck_frame _).1.trans hsteps

theorem passStep_halt (env : NavEnv) (down : Bool) (st : PassState)
    (h : (passStep env down st).1 = true) :
    atEdge env down ((passStep env down st).2).pos = true
    ∧ 3 ≤ ((passStep env down st).2).stable := by
  unfold passStep at h ⊢
  dsimp only at h ⊢
  set st1 := List.foldl collectOne { st with steps := st.steps + 1 } (env.render st.steps st.pos)
    with hst1
  by_cases hedge : atEdge env down st1.pos = true
  · rw [if_pos hedge] at h ⊢
    by_cases hst : 3 ≤ st1.stable + 1
    · rw [if_pos hst] at h ⊢
      exact ⟨hedge, hst⟩
    · rw [if_neg hst] at h
      simp at h
  · rw [if_neg hedge] at h
    simp at h

theorem runPassAux_steps (env : NavEnv) (down : Bool) :
    ∀ (n : Nat) (st : PassState), ((runPassAux env down n st).2).steps ≤ st.steps + n
  | 0, st => by simp [runPassAux]
  | n + 1, st => by
    simp only [runPassAux]
    by_cases hr : (passStep env down st).1 = true
    · rw [if_pos hr]
      rw [passStep_steps]
      omega
    · rw [if_neg hr]
      have h1 := runPassAux_steps env down n (passStep env down st).2
      rw [passStep_steps] at h1
      omega

theorem runPassAux_halt (env : NavEnv) (down : Bool) :
    ∀ (n : Nat) (st : PassState), (runPassAux env down n st).1 = true →
      atEdge env down ((runPassAux env down n st).2).pos = true
      ∧ 3 ≤ ((runPassAux env down n st).2).stable
  | 0, st => by simp [runPassAux]
  | n + 1, st => by
    simp only [runPassAux]
    by_cases hr : (passStep env down st).1 = true
    · rw [if_pos hr]
      intro _
      exact passStep_halt env down st hr
    · rw [if_neg hr]
      exact runPassAux_halt env down n (passStep env down st).2

/-- **C5, amended** (the claim as stated is refuted by
`C5_counterexample`).  Every pass terminates: a pass started with fuel `n`
(the source uses 400) executes at most `n` steps.  And the pass stops early
(`halted = true`) only at a step whose edge check finds the pass at its
target scroll edge with the stability counter at 3 or more; the counter
counts consecutive no-new-link steps *and* edge contacts, so three
consecutive no-new-link steps away from the edge do not stop the pass. -/
theorem C5_pass_termination_and_stop_condition :
    (∀ (env : NavEnv) (down : Bool) (n : Nat) (st : PassState),
        ((runPassAux env down n st).2).steps ≤ st.steps + n)
    ∧ (∀ (env : NavEnv) (down : Bool) (n : Nat) (st : PassState),
        (runPassAux env down n st).1 = true →
          atEdge env down ((runPassAux env down n st).2).pos = true
          ∧ 3 ≤ ((runPassAux env down n st).2).stable) :=
  ⟨fun env down n st => runPassAux_steps env down n st,
   fun env down n st h => runPassAux_halt env down n st h⟩

/-- **C5, counterexample.**  In `cexNavEnv` (a realizable virtualized
navigator) the downward pass records the trace `[1, 1, 1, 1, 1, 2]`: steps
2, 3 and 4 yield no new links, yet the pass does not stop there — it keeps
scrolling and step 6 still collects a new link.  So "stops as soon as three
consecutive steps yield no new links" is false. -/
theorem C5_counterexample : ¬claimStopsOnStability := by
  intro h
  have hlen := h cexNavEnv true [] [] 0 1 (by decide) (by decide) (by decide) (by decide)
  exact absurd hlen (by decide)

/-- Witness for `C5_pass_termination_and_stop_condition` at a concrete run
that does halt early. -/
theorem C5_check :
    ((runPassAux cexNavEnv true 400 (mkPassState cexNavEnv true [] [])).2).steps
        ≤ (mkPassState cexNavEnv true [] []).steps + 400
    ∧ ((runPassAux cexNavEnv true 400 (mkPassState cexNavEnv true [] [])).1 = true
        ∧ atEdge cexNavEnv true
            ((runPassAux cexNavEnv true 400 (mkPassState cexNavEnv true [] [])).2).pos = true
        ∧ 3 ≤ ((runPassAux cexNavEnv true 400 (mkPassState cexNavEnv true [] [])).2).stable) :=
  ⟨C5_pass_termination_and_stop_condition.1 cexNavEnv true 400 _,
   by decide,
   (C5_pass_termination_and_stop_condition.2 cexNavEnv true 400
      (mkPassState cexNavEnv true [] []) (by decide)).1,
   (C5_pass_termination_and_stop_condition.2 cexNavEnv true 400
      (mkPassState cexNavEnv true [] []) (by decide)).2⟩

/-! ## Claim C8: navigation failures -/

theorem sectionStep_skip (env : CrawlEnv) (st : List Link × List String)
    (e : String × String)
    (h : env.rawLinks
        (urljoinApprox base_url ("/design/human-interface-guidelines/" ++ e.1 ++ "/"))
        = none) :
    sectionStep env st e = st := by
  unfold sectionStep
  dsimp only
  rw [h]

/-- **C8, counterexample.**  The claim "a discovered link whose article page
cannot be loaded during classification is skipped" is false: for the link
`/design/human-interface-guidelines/color` in an environment where every page
load fails, the `except Exception: pass` at url_discovery.py 421-423 swallows
the failure and the static fallback table still classifies the link into
Foundations, so it does reach the output tree. -/
theorem C8_counterexample : ¬claimSkipOnLoadFail := by
  intro h
  have h0 := h noCtx colorLink rfl
  exact absurd h0 (by decide)

/-- **C8, amended** (the claim as stated is refuted by `C8_counterexample`).
A *section landing page* whose load fails is skipped: the crawl's per-section
step leaves its state unchanged (`continue`, url_discovery.py 237-239).  But
during classification a failed article-page load is swallowed and the link may
still be classified through the static fallback tables and added to the tree:
with every page load failing, the `color` link is still classified into
Foundations. -/
theorem C8_navigation_failure_policy :
    (∀ (env : CrawlEnv) (st : List Link × List String) (e : String × String),
        env.rawLinks
          (urljoinApprox base_url ("/design/human-interface-guidelines/" ++ e.1 ++ "/"))
          = none →
        sectionStep env st e = st)
    ∧ treeUrls (classify_and_assemble noCtx [colorLink]) = [colorUrl] :=
  ⟨fun env st e h => sectionStep_skip env st e h, rfl⟩

/-- Witness for `C8_navigation_failure_policy`. -/
theorem C8_check :
    noPages.rawLinks
        (urljoinApprox base_url ("/design/human-interface-guidelines/" ++ "foundations" ++ "/"))
        = none
    ∧ sectionStep noPages ([], []) ("foundations", "Foundations") = ([], [])
    ∧ treeUrls (classify_and_assemble noCtx [colorLink]) = [colorUrl] :=
  ⟨rfl,
   C8_navigation_failure_policy.1 noPages ([], []) ("foundations", "Foundations") rfl,
   C8_navigation_failure_policy.2⟩

/-! ## Claim C4: canonical ordering of sections and sub-sections -/

theorem filterMap_lookup_titles {β τ : Type} (m : List (String × β)) (t : τ → String)
    (f : String → β → τ) (hf : ∀ k v, t (f k v) = k) :
    ∀ names : List String,
      ((names.filterMap (fun name => (m.lookup name).map (f name))).map t)
      = names.filter (fun n => (m.lookup n).isSome)
  | [] => rfl
  | n :: rest => by
    have ih := filterMap_lookup_titles m t f hf rest
    cases h : m.lookup n with
    | none =>
      rw [List.filterMap_cons, h, List.filter_cons]
      simp only [Option.map_none', h, Option.isSome_none]
      rw [if_neg (by simp)]
      exact ih
    | some v =>
      rw [List.filterMap_cons, h, List.filter_cons]
      simp only [Option.map_some', h, Option.isSome_some, List.map_cons]
      rw [if_pos (by simp), hf]
      exact congrArg _ ih

theorem buildComponentsSubs_titles (sd : SecData) :
    (buildComponentsSubs sd).map SubSection.title =
      COMPONENTS_ORDER.filter (fun n => (sd.sub_map.lookup n).isSome)
      ++ (sd.sub_map.map Prod.fst).filter (fun n => !(COMPONENTS_ORDER.contains n)) := by
  unfold buildComponentsSubs
  rw [List.map_append]
  congr 1
  · exact filterMap_lookup_titles sd.sub_map SubSection.title
      (fun sub arts => SubSection.mk sub arts) (fun _ _ => rfl) COMPONENTS_ORDER
  · rw [List.map_map, List.filter_map]
    rfl

/-- **C4** (confirmed).  (1) The assembled tree lists the known top-level
sections in the fixed canonical order `TOP_LEVEL_ORDER` — independent of the
order in which they were discovered into `sections_map` — with sections not
in the canonical list appended afterwards in first-seen order.  (2) Inside
the Components section the sub-sections appear in the fixed canonical order
`COMPONENTS_ORDER`, with unrecognized sub-section names appended in
first-seen order. -/
theorem C4_canonical_order :
    (∀ m : SectionsMap,
      (buildSections m).map Sect.title
        = TOP_LEVEL_ORDER.filter (fun n => (m.lookup n).isSome)
          ++ (m.map Prod.fst).filter (fun n => !(TOP_LEVEL_ORDER.contains n)))
    ∧ (∀ (m : SectionsMap) (sd : SecData) (s : Sect),
        m.lookup "Components" = some sd → s ∈ buildSections m → s.title = "Components" →
        s.articles = sd.articles
        ∧ s.sub_sections.map SubSection.title
            = COMPONENTS_ORDER.filter (fun n => (sd.sub_map.lookup n).isSome)
              ++ (sd.sub_map.map Prod.fst).filter (fun n => !(COMPONENTS_ORDER.contains n))) := by
  constructor
  · intro m
    unfold buildSections
    rw [List.map_append]
    congr 1
    · exact filterMap_lookup_titles m Sect.title
        (fun name sd =>
          if name == "Components" then Sect.mk name sd.articles (buildComponentsSubs sd)
          else Sect.mk name sd.articles [])
        (fun k v => by by_cases h : k == "Components" <;> simp [h])
        TOP_LEVEL_ORDER
    · rw [List.map_map, List.filter_map]
      rfl
  · intro m sd s hlook hmem htitle
    unfold buildSections at hmem
    rcases List.mem_append.mp hmem with hA | hB
    · obtain ⟨name, hname, hmap⟩ := List.mem_filterMap.mp hA
      cases h : m.lookup name with
      | none => rw [h] at hmap; simp at hmap
      | some sd' =>
        rw [h] at hmap
        simp only [Option.map_some', Option.some_inj] at hmap
        by_cases hc : name == "Components"
        · have hn : name = "Components" := by simpa using hc
          subst hn
          rw [hlook] at h
          have hs : sd' = sd := by injection h with h'; exact h'.symm
          subst hs
          rw [if_pos hc] at hmap
          subst hmap
          exact ⟨rfl, buildComponentsSubs_titles sd'⟩
        · rw [if_neg hc] at hmap
          subst hmap
          simp only [Sect.title] at htitle
          exact absurd (by simpa using htitle) (by simpa using hc)
    · obtain ⟨p, hp, hmk⟩ := List.mem_map.mp hB
      have hfilter := (List.mem_filter.mp hp).2
      subst hmk
      simp only [Sect.title] at htitle
      rw [htitle] at hfilter
      exact absurd hfilter (by decide)

/-- Witness for `C4_canonical_order`: sections discovered in the order
Patterns, Foundations, Components come out as Foundations, Patterns,
Components, and inside Components the unknown sub-section "Zeta" follows the
canonical "Content". -/
theorem C4_check :
    (buildSections cexSectionsMap).map Sect.title
        = TOP_LEVEL_ORDER.filter (fun n => (cexSectionsMap.lookup n).isSome)
          ++ (cexSectionsMap.map Prod.fst).filter (fun n => !(TOP_LEVEL_ORDER.contains n))
    ∧ cexSectionsMap.lookup "Components" = some cexComponentsData
    ∧ cexComponentsSect ∈ buildSections cexSectionsMap
    ∧ cexComponentsSect.articles = cexComponentsData.articles
    ∧ cexComponentsSect.sub_sections.map SubSection.title
        = COMPONENTS_ORDER.filter (fun n => (cexComponentsData.sub_map.lookup n).isSome)
          ++ (cexComponentsData.sub_map.map Prod.fst).filter
              (fun n => !(COMPONENTS_ORDER.contains n)) :=
  ⟨C4_canonical_order.1 cexSectionsMap,
   rfl,
   by decide,
   (C4_canonical_order.2 cexSectionsMap cexComponentsData cexComponentsSect
      rfl (by decide) rfl).1,
   (C4_canonical_order.2 cexSectionsMap cexComponentsData cexComponentsSect
      rfl (by decide) rfl).2⟩

/-! ## Step equations for the recursive definitions with inner matches -/

theorem outlineArts_nil (g : GenMap) (d cur : Nat) : outlineArts g d [] cur = ([], cur) :=
  rfl

theorem outlineArts_cons_some (g : GenMap) (d : Nat) (a : Article) (rest : List Article)
    (cur : Nat) (fc : Nat × Nat) (h : lookupG a.url g = some fc) :
    outlineArts g d (a :: rest) cur
      = (⟨d, a.title, cur, some a.url⟩ :: (outlineArts g d rest (cur + fc.2)).1,
         (outlineArts g d rest (cur + fc.2)).2) := by
  conv_lhs => unfold outlineArts
  rw [h]

theorem outlineArts_cons_none (g : GenMap) (d : Nat) (a : Article) (rest : List Article)
    (cur : Nat) (h : lookupG a.url g = none) :
    outlineArts g d (a :: rest) cur = outlineArts g d rest cur := by
  conv_lhs => unfold outlineArts
  rw [h]

theorem assignArts_cons_skip (g : GenMap) (a : Article) (rest : List Article)
    (proc : List String) (cur : Nat) (h : proc.contains a.url = true) :
    assignArts g (a :: rest) proc cur
      = (a :: (assignArts g rest proc cur).1, (assignArts g rest proc cur).2) := by
  conv_lhs => unfold assignArts
  rw [if_pos h]

theorem assignArts_cons_some (g : GenMap) (a : Article) (rest : List Article)
    (proc : List String) (cur : Nat) (fc : Nat × Nat)
    (hp : ¬proc.contains a.url = true) (h : lookupG a.url g = some fc) :
    assignArts g (a :: rest) proc cur
      = ({ a with page_num := some cur }
            :: (assignArts g rest (a.url :: proc) (cur + fc.2)).1,
         (assignArts g rest (a.url :: proc) (cur + fc.2)).2) := by
  conv_lhs => unfold assignArts
  rw [if_neg hp, h]

theorem assignArts_cons_none (g : GenMap) (a : Article) (rest : List Article)
    (proc : List String) (cur : Nat)
    (hp : ¬proc.contains a.url = true) (h : lookupG a.url g = none) :
    assignArts g (a :: rest) proc cur
      = (a :: (assignArts g rest proc cur).1, (assignArts g rest proc cur).2) := by
  conv_lhs => unfold assignArts
  rw [if_neg hp, h]

theorem genStep_visit_none (env : RenderEnv) (st : GenState) (a : Article)
    (h : env.visit a.url = none) : genStep env st a = st := by
  unfold genStep
  rw [h]

theorem genStep_reuse (env : RenderEnv) (st : GenState) (a : Article) (h : String)
    (fc : Nat × Nat) (hv : env.visit a.url = some h) (hl : st.hashes.lookup h = some fc) :
    genStep env st a = { st with files := setG a.url fc st.files } := by
  unfold genStep
  rw [hv]
  dsimp only
  rw [hl]

theorem genStep_render (env : RenderEnv) (st : GenState) (a : Article) (h : String)
    (hv : env.visit a.url = some h) (hl : st.hashes.lookup h = none)
    (hok : env.pdfOk a.url = true) :
    genStep env st a
      = { files := setG a.url (st.nextId, env.pages a.url) st.files,
          hashes := st.hashes ++ [(h, (st.nextId, env.pages a.url))],
          nextId := st.nextId + 1, renderedFor := st.renderedFor ++ [a.url] } := by
  unfold genStep
  rw [hv]
  dsimp only
  rw [hl]
  dsimp only
  rw [if_pos hok]

theorem genStep_render_fail (env : RenderEnv) (st : GenState) (a : Article) (h : String)
    (hv : env.visit a.url = some h) (hl : st.hashes.lookup h = none)
    (hok : ¬env.pdfOk a.url = true) :
    genStep env st a = st := by
  unfold genStep
  rw [hv]
  dsimp only
  rw [hl]
  dsimp only
  rw [if_neg hok]

/-! ## Claim C7: a failed render is skipped and leaves no trace downstream -/

theorem setG_lookup_self (u : String) (v : Nat × Nat) :
    ∀ g : GenMap, lookupG u (setG u v g) = some v
  | [] => lookup_cons_self _ _ _
  | (k, w) :: rest => by
    unfold setG
    by_cases hk : k == u
    · have : k = u := by simpa using hk
      subst this
      rw [if_pos hk]
      exact lookup_cons_self _ _ _
    · rw [if_neg hk]
      have hne : ¬u = k := fun he => hk (by simp [he])
      unfold lookupG
      rw [lookup_cons_ne _ _ _ _ hne]
      exact setG_lookup_self u v rest

theorem setG_lookup_ne (u k : String) (v : Nat × Nat) (hne : ¬u = k) :
    ∀ g : GenMap, lookupG u (setG k v g) = lookupG u g
  | [] => by
    unfold setG lookupG
    rw [lookup_cons_ne _ _ _ _ hne]
  | (k', w) :: rest => by
    unfold setG
    by_cases hk : k' == k
    · rw [if_pos hk]
      have h1 : ¬u = k' := fun he => hne (he.trans (by simpa using hk))
      unfold lookupG
      rw [lookup_cons_ne _ _ _ _ h1, lookup_cons_ne _ _ _ _ h1]
    · rw [if_neg hk]
      by_cases h1 : u = k'
      · subst h1
        unfold lookupG
        rw [lookup_cons_self, lookup_cons_self]
      · unfold lookupG
        rw [lookup_cons_ne _ _ _ _ h1, lookup_cons_ne _ _ _ _ h1]
        exact setG_lookup_ne u k v hne rest

theorem genStep_files_other (env : RenderEnv) (st : GenState) (a : Article) (u : String)
    (hne : ¬u = a.url) : lookupG u (genStep env st a).files = lookupG u st.files := by
  cases hv : env.visit a.url with
  | none => rw [genStep_visit_none env st a hv]
  | some h =>
    cases hl : st.hashes.lookup h with
    | some fc =>
      rw [genStep_reuse env st a h fc hv hl]
      exact setG_lookup_ne u a.url fc hne st.files
    | none =>
      by_cases hok : env.pdfOk a.url = true
      · rw [genStep_render env st a h hv hl hok]
        exact setG_lookup_ne u a.url _ hne st.files
      · rw [genStep_render_fail env st a h hv hl hok]

theorem gen_fold_no_entry (env : RenderEnv) (u : String) :
    ∀ (arts : List Article) (st : GenState), lookupG u st.files = none →
      (∀ a ∈ arts, a.url = u → env.visit u = none) →
      lookupG u (arts.foldl (genStep env) st).files = none
  | [], st, h0, _ => h0
  | a :: rest, st, h0, hall => by
    rw [List.foldl_cons]
    refine gen_fold_no_entry env u rest (genStep env st a) ?_
      (fun b hb hbu => hall b (by simp [hb]) hbu)
    by_cases ha : a.url = u
    · rw [genStep_visit_none env st a (by rw [ha]; exact hall a (by simp) ha)]
      exact h0
    · rw [genStep_files_other env st a u (fun he => ha he.symm)]
      exact h0

theorem filterMap_file_removeA (g : GenMap) (u : String) (h : lookupG u g = none) :
    ∀ arts : List Article,
      ((arts.filter (fun a => !(a.url == u))).filterMap
          (fun a => (lookupG a.url g).map Prod.fst))
      = arts.filterMap (fun a => (lookupG a.url g).map Prod.fst)
  | [] => rfl
  | a :: rest => by
    rw [List.filter_cons]
    by_cases ha : a.url = u
    · rw [if_neg (by simp [ha])]
      rw [List.filterMap_cons, ha, h]
      exact filterMap_file_removeA g u h rest
    · rw [if_pos (by simp [ha])]
      rw [List.filterMap_cons, List.filterMap_cons]
      cases hl : lookupG a.url g <;>
        simp only [Option.map_none', Option.map_some', filterMap_file_removeA g u h rest]

theorem outlineArts_removeA (g : GenMap) (u : String) (d : Nat) (h : lookupG u g = none) :
    ∀ (arts : List Article) (cur : Nat),
      outlineArts g d (arts.filter (fun a => !(a.url == u))) cur = outlineArts g d arts cur
  | [], _ => rfl
  | a :: rest, cur => by
    rw [List.filter_cons]
    by_cases ha : a.url = u
    · rw [if_neg (by simp [ha])]
      rw [outlineArts_cons_none g d a rest cur (by rw [ha]; exact h)]
      exact outlineArts_removeA g u d h rest cur
    · rw [if_pos (by simp [ha])]
      cases hl : lookupG a.url g with
      | none =>
        rw [outlineArts_cons_none g d a _ cur hl, outlineArts_cons_none g d a rest cur hl]
        exact outlineArts_removeA g u d h rest cur
      | some fc =>
        rw [outlineArts_cons_some g d a _ cur fc hl, outlineArts_cons_some g d a rest cur fc hl]
        rw [outlineArts_removeA g u d h rest (cur + fc.2)]

theorem outlineSubs_removeA (g : GenMap) (u : String) (h : lookupG u g = none) :
    ∀ (sss : List SubSection) (cur : Nat),
      outlineSubs g (sss.map (fun ss =>
          { ss with articles := ss.articles.filter (fun a => !(a.url == u)) })) cur
      = outlineSubs g sss cur
  | [], _ => rfl
  | ss :: rest, cur => by
    simp only [List.map_cons]
    unfold outlineSubs
    dsimp only
    rw [outlineArts_removeA g u 2 h ss.articles cur, outlineSubs_removeA g u h rest]

theorem outlineSec_removeA (g : GenMap) (u : String) (h : lookupG u g = none) (s : Sect)
    (cur : Nat) :
    outlineSec g
      { s with articles := s.articles.filter (fun a => !(a.url == u)),
               sub_sections := s.sub_sections.map (fun ss =>
                 { ss with articles := ss.articles.filter (fun a => !(a.url == u)) }) } cur
    = outlineSec g s cur := by
  unfold outlineSec
  dsimp only
  rw [outlineArts_removeA g u 1 h s.articles cur, outlineSubs_removeA g u h s.sub_sections]

theorem outlineSecs_removeUrl (g : GenMap) (u : String) (h : lookupG u g = none) :
    ∀ (secs : List Sect) (cur : Nat),
      outlineSecs g (removeUrl u secs) cur = outlineSecs g secs cur
  | [], _ => rfl
  | s :: rest, cur => by
    unfold removeUrl
    simp only [List.map_cons]
    unfold outlineSecs
    dsimp only
    rw [outlineSec_removeA g u h s cur]
    have h2 := outlineSecs_removeUrl g u h rest (outlineSec g s cur).2
    unfold removeUrl at h2
    rw [h2]

theorem files_to_append_removeUrl (g : GenMap) (u : String) (h : lookupG u g = none) :
    ∀ secs : List Sect, files_to_append (removeUrl u secs) g = files_to_append secs g
  | [] => rfl
  | s :: rest => by
    unfold removeUrl
    simp only [List.map_cons]
    unfold files_to_append
    rw [List.flatMap_cons, List.flatMap_cons]
    have h1 := filterMap_file_removeA g u h s.articles
    have h2 : (s.sub_sections.map (fun ss =>
        { ss with articles := ss.articles.filter (fun a => !(a.url == u)) })).flatMap
          (fun ss => ss.articles.filterMap (fun a => (lookupG a.url g).map Prod.fst))
        = s.sub_sections.flatMap
          (fun ss => ss.articles.filterMap (fun a => (lookupG a.url g).map Prod.fst)) := by
      rw [List.flatMap_map]
      refine List.flatMap_congr ?_
      intro ss _
      exact filterMap_file_removeA g u h ss.articles
    have h3 := files_to_append_removeUrl g u h rest
    unfold files_to_append removeUrl at h3
    rw [h1, h2, h3]

/-- **C7** (confirmed).  (1) An article whose render attempt raises is a
no-op for the render loop: processing the list with it equals processing the
list without it — the run continues and later articles are unaffected.
(2) If additionally no successful occurrence of the url exists, the final
ArtifactMap has no entry for it.  (3) The merger produces the same merged
document (same appended artifacts, same outline, same offsets) as for the
tree with that article removed: no concatenated pages and no outline entry
for it. -/
theorem C7_render_failure_skipped :
    (∀ (env : RenderEnv) (st : GenState) (l1 l2 : List Article) (a : Article),
        env.visit a.url = none →
        (l1 ++ a :: l2).foldl (genStep env) st = (l1 ++ l2).foldl (genStep env) st)
    ∧ (∀ (env : RenderEnv) (secs : List Sect) (u : String),
        (∀ a ∈ flattenArticles secs, a.url = u → env.visit u = none) →
        lookupG u (generate_pdfs env secs).files = none)
    ∧ (∀ (u : String) (secs : List Sect) (g : GenMap) (cp ip : Nat),
        lookupG u g = none →
        merge_pdfs secs g cp ip = merge_pdfs (removeUrl u secs) g cp ip) := by
  refine ⟨?_, ?_, ?_⟩
  · intro env st l1 l2 a h
    rw [List.foldl_append, List.foldl_append, List.foldl_cons,
      genStep_visit_none env (l1.foldl (genStep env) st) a h]
  · intro env secs u hall
    exact gen_fold_no_entry env u (flattenArticles secs) _ rfl hall
  · intro u secs g cp ip h
    unfold merge_pdfs
    by_cases hg : g.isEmpty = true
    · rw [if_pos hg, if_pos hg]
    · rw [if_neg hg, if_neg hg]
      unfold mergeOutline
      rw [files_to_append_removeUrl g u h secs, outlineSecs_removeUrl g u h secs]

/-- Witness for `C7_render_failure_skipped` on a concrete failing article. -/
theorem C7_check :
    failEnv.visit badArt.url = none
    ∧ ([goodArt] ++ badArt :: []).foldl (genStep failEnv) ⟨[], [], 0, []⟩
        = ([goodArt] ++ []).foldl (genStep failEnv) ⟨[], [], 0, []⟩
    ∧ lookupG "https://bad" (generate_pdfs failEnv failTree).files = none
    ∧ merge_pdfs failTree failMap 1 1 = merge_pdfs (removeUrl "https://bad" failTree) failMap 1 1 :=
  ⟨rfl,
   C7_render_failure_skipped.1 failEnv ⟨[], [], 0, []⟩ [goodArt] [] badArt rfl,
   C7_render_failure_skipped.2.1 failEnv failTree "https://bad" (by decide),
   C7_render_failure_skipped.2.2 "https://bad" failTree failMap 1 1 rfl⟩

/-! ## Claim C3: content-hash deduplication of the renderer -/

theorem genStep_hashes_mono (env : RenderEnv) (st : GenState) (a : Article)
    (h : String) (fc : Nat × Nat) (hl : st.hashes.lookup h = some fc) :
    (genStep env st a).hashes.lookup h = some fc := by
  cases hv : env.visit a.url with
  | none =>
    rw [genStep_visit_none env st a hv]
    exact hl
  | some h' =>
    cases hl' : st.hashes.lookup h' with
    | some fc' =>
      rw [genStep_reuse env st a h' fc' hv hl']
      exact hl
    | none =>
      by_cases hok : env.pdfOk a.url = true
      · rw [genStep_render env st a h' hv hl' hok]
        exact lookup_append_some _ _ _ _ hl
      · rw [genStep_render_fail env st a h' hv hl' hok]
        exact hl

theorem gen_fold_stable (env : RenderEnv) (u h : String) (fc : Nat × Nat)
    (hv : env.visit u = some h) :
    ∀ (arts : List Article) (st : GenState),
      st.hashes.lookup h = some fc → lookupG u st.files = some fc →
      (arts.foldl (genStep env) st).hashes.lookup h = some fc
      ∧ lookupG u (arts.foldl (genStep env) st).files = some fc
  | [], _, h1, h2 => ⟨h1, h2⟩
  | a :: rest, st, h1, h2 => by
    rw [List.foldl_cons]
    refine gen_fold_stable env u h fc hv rest (genStep env st a)
      (genStep_hashes_mono env st a h fc h1) ?_
    by_cases ha : u = a.url
    · have hva : env.visit a.url = some h := by rw [← ha]; exact hv
      rw [genStep_reuse env st a h fc hva h1, ha]
      exact setG_lookup_self a.url fc st.files
    · rw [genStep_files_other env st a u ha]
      exact h2

theorem gen_fold_entry (env : RenderEnv) (u h : String)
    (hv : env.visit u = some h) (hok : env.pdfOk u = true) :
    ∀ (arts : List Article) (st : GenState), u ∈ arts.map Article.url →
      ∃ fc, (arts.foldl (genStep env) st).hashes.lookup h = some fc
          ∧ lookupG u (arts.foldl (genStep env) st).files = some fc
  | [], _, hm => absurd hm (by simp)
  | a :: rest, st, hm => by
    rw [List.map_cons] at hm
    rw [List.foldl_cons]
    rcases List.mem_cons.mp hm with ha | hm'
    · have hva : env.visit a.url = some h := by rw [← ha]; exact hv
      cases hl : st.hashes.lookup h with
      | some fc =>
        refine ⟨fc, gen_fold_stable env u h fc hv rest (genStep env st a) ?_ ?_⟩
        · rw [genStep_reuse env st a h fc hva hl]
          exact hl
        · rw [genStep_reuse env st a h fc hva hl, ha]
          exact setG_lookup_self a.url fc st.files
      | none =>
        have hoka : env.pdfOk a.url = true := by rw [← ha]; exact hok
        refine ⟨(st.nextId, env.pages a.url),
          gen_fold_stable env u h _ hv rest (genStep env st a) ?_ ?_⟩
        · rw [genStep_render env st a h hva hl hoka]
          show (st.hashes ++ [(h, (st.nextId, env.pages a.url))]).lookup h = _
          rw [lookup_append_none _ _ _ hl]
          exact lookup_cons_self _ _ _
        · rw [genStep_render env st a h hva hl hoka, ha]
          exact setG_lookup_self a.url _ st.files
    · exact gen_fold_entry env u h hv hok rest (genStep env st a) hm'

theorem genStep_inv (env : RenderEnv) (st : GenState) (a : Article)
    (hi : genInv env st) : genInv env (genStep env st a) := by
  cases hv : env.visit a.url with
  | none =>
    rw [genStep_visit_none env st a hv]
    exact hi
  | some h =>
    cases hl : st.hashes.lookup h with
    | some fc =>
      rw [genStep_reuse env st a h fc hv hl]
      exact hi
    | none =>
      by_cases hok : env.pdfOk a.url = true
      · rw [genStep_render env st a h hv hl hok]
        have hnotin : a.url ∉ st.renderedFor := by
          intro hmem
          obtain ⟨h', hv', hsome⟩ := hi.1 a.url hmem
          rw [hv] at hv'
          obtain rfl : h = h' := by injection hv'
          rw [hl] at hsome
          simp at hsome
        refine ⟨?_, ?_, ?_⟩
        · intro u hu
          rcases List.mem_append.mp hu with hu | hu
          · obtain ⟨h', hv', hsome⟩ := hi.1 u hu
            obtain ⟨fc', hfc'⟩ := Option.isSome_iff_exists.mp hsome
            exact ⟨h', hv', by rw [lookup_append_some _ _ _ _ hfc']; rfl⟩
          · obtain rfl : u = a.url := by simpa using hu
            refine ⟨h, hv, ?_⟩
            rw [lookup_append_none _ _ _ hl, lookup_cons_self]
            rfl
        · rw [List.nodup_append]
          exact ⟨hi.2.1, by simp, by simpa [List.disjoint_singleton] using hnotin⟩
        · intro u v hu hv2 heq
          rcases List.mem_append.mp hu with hu | hu <;>
            rcases List.mem_append.mp hv2 with hv3 | hv3
          · exact hi.2.2 u v hu hv3 heq
          · obtain rfl : v = a.url := by simpa using hv3
            exfalso
            obtain ⟨h', hv', hsome⟩ := hi.1 u hu
            rw [heq, hv] at hv'
            obtain rfl : h = h' := by injection hv'
            rw [hl] at hsome
            simp at hsome
          · obtain rfl : u = a.url := by simpa using hu
            exfalso
            obtain ⟨h', hv', hsome⟩ := hi.1 v hv3
            rw [← heq, hv] at hv'
            obtain rfl : h = h' := by injection hv'
            rw [hl] at hsome
            simp at hsome
          · obtain rfl : u = a.url := by simpa using hu
            have hv4 : v = a.url := by simpa using hv3
            exact hv4.symm
      · rw [genStep_render_fail env st a h hv hl hok]
        exact hi

theorem gen_fold_inv (env : RenderEnv) :
    ∀ (arts : List Article) (st : GenState), genInv env st →
      genInv env (arts.foldl (genStep env) st)
  | [], _, hi => hi
  | a :: rest, st, hi => by
    rw [List.foldl_cons]
    exact gen_fold_inv env rest (genStep env st a) (genStep_inv env st a hi)

theorem length_le_one_of_nodup_allEq {α : Type} (l : List α) (hnd : l.Nodup)
    (hall : ∀ x ∈ l, ∀ y ∈ l, x = y) : l.length ≤ 1 := by
  match l with
  | [] => simp
  | [_] => simp
  | x :: y :: rest =>
    exfalso
    have hxy : x = y := hall x (by simp) y (by simp)
    rw [List.nodup_cons] at hnd
    exact hnd.1 (by rw [hxy]; simp)

/-- **C3** (confirmed).  For two distinct urls whose pages hash to the same
content hash (both rendering successfully), both urls receive an ArtifactMap
entry with the *same* artifact reference and page count, and at most one
render is performed for that content hash (the second url's page is never
re-rendered). -/
theorem C3_content_hash_dedup :
    ∀ (env : RenderEnv) (secs : List Sect) (u1 u2 h : String),
      u1 ≠ u2 →
      u1 ∈ (flattenArticles secs).map Article.url →
      u2 ∈ (flattenArticles secs).map Article.url →
      env.visit u1 = some h → env.visit u2 = some h →
      env.pdfOk u1 = true → env.pdfOk u2 = true →
      (∃ fc, lookupG u1 (generate_pdfs env secs).files = some fc
           ∧ lookupG u2 (generate_pdfs env secs).files = some fc)
      ∧ ((generate_pdfs env secs).renderedFor.filter
            (fun u => decide (env.visit u = some h))).length ≤ 1 := by
  intro env secs u1 u2 h hne hm1 hm2 hv1 hv2 hok1 hok2
  obtain ⟨fc1, hh1, hf1⟩ := gen_fold_entry env u1 h hv1 hok1 (flattenArticles secs)
    ⟨[], [], 0, []⟩ hm1
  obtain ⟨fc2, hh2, hf2⟩ := gen_fold_entry env u2 h hv2 hok2 (flattenArticles secs)
    ⟨[], [], 0, []⟩ hm2
  have hfc : fc1 = fc2 := by
    rw [hh1] at hh2
    injection hh2
  constructor
  · exact ⟨fc1, hf1, by rw [hfc]; exact hf2⟩
  · have hinv : genInv env (generate_pdfs env secs) :=
      gen_fold_inv env (flattenArticles secs) ⟨[], [], 0, []⟩
        ⟨by simp, by simp, by simp⟩
    set L := (generate_pdfs env secs).renderedFor.filter
      (fun u => decide (env.visit u = some h)) with hL
    refine length_le_one_of_nodup_allEq L (hinv.2.1.filter _) ?_
    intro x hx y hy
    have hx' := List.mem_filter.mp hx
    have hy' := List.mem_filter.mp hy
    exact hinv.2.2 x y hx'.1 hy'.1 (by
      rw [of_decide_eq_true hx'.2, of_decide_eq_true hy'.2])

/-- Witness for `C3_content_hash_dedup`: urls `https://a` and `https://b`
share content hash `h77`. -/
theorem C3_check :
    dupEnv.visit "https://a" = some "h77"
    ∧ dupEnv.visit "https://b" = some "h77"
    ∧ ((∃ fc, lookupG "https://a" (generate_pdfs dupEnv dupTree).files = some fc
           ∧ lookupG "https://b" (generate_pdfs dupEnv dupTree).files = some fc)
        ∧ ((generate_pdfs dupEnv dupTree).renderedFor.filter
              (fun u => decide (dupEnv.visit u = some "h77"))).length ≤ 1) :=
  ⟨rfl, rfl,
   C3_content_hash_dedup dupEnv dupTree "https://a" "https://b" "h77"
     (by decide) (by decide) (by decide) rfl rfl rfl rfl⟩

/-! ## Claims C2 and C10: page-offset arithmetic of builder and merger -/

theorem artEntries_nil (g : GenMap) : artEntries g [] = [] := rfl

theorem artEntries_cons_some (g : GenMap) (a : Article) (rest : List Article)
    (fc : Nat × Nat) (h : lookupG a.url g = some fc) :
    artEntries g (a :: rest) = (a.url, fc) :: artEntries g rest := by
  unfold artEntries
  rw [List.filterMap_cons, h]
  rfl

theorem artEntries_cons_none (g : GenMap) (a : Article) (rest : List Article)
    (h : lookupG a.url g = none) :
    artEntries g (a :: rest) = artEntries g rest := by
  unfold artEntries
  rw [List.filterMap_cons, h]
  rfl

theorem artEntries_append (g : GenMap) (l1 l2 : List Article) :
    artEntries g (l1 ++ l2) = artEntries g l1 ++ artEntries g l2 := by
  unfold artEntries
  rw [List.filterMap_append]

theorem artEntries_mem_url (g : GenMap) (e : String × Nat × Nat) :
    ∀ arts : List Article, e ∈ artEntries g arts → e.1 ∈ arts.map Article.url
  | a :: rest, he => by
    cases h : lookupG a.url g with
    | some fc =>
      rw [artEntries_cons_some g a rest fc h] at he
      rcases List.mem_cons.mp he with he | he
      · subst he
        simp
      · simp only [List.map_cons, List.mem_cons]
        exact Or.inr (artEntries_mem_url g e rest he)
    | none =>
      rw [artEntries_cons_none g a rest h] at he
      simp only [List.map_cons, List.mem_cons]
      exact Or.inr (artEntries_mem_url g e rest he)

theorem sumC_nil : sumC [] = 0 := rfl

theorem sumC_cons (e : String × Nat × Nat) (l : List (String × Nat × Nat)) :
    sumC (e :: l) = e.2.2 + sumC l := by
  unfold sumC
  rw [List.map_cons, List.sum_cons]

theorem sumC_cons' (u : String) (fc : Nat × Nat) (l : List (String × Nat × Nat)) :
    sumC ((u, fc) :: l) = fc.2 + sumC l := by
  obtain ⟨f, c⟩ := fc
  rfl

theorem cumFrom_cons (u : String) (fc : Nat × Nat) (l : List (String × Nat × Nat))
    (start : Nat) :
    cumFrom start ((u, fc) :: l) = (u, start) :: cumFrom (start + fc.2) l := by
  obtain ⟨f, c⟩ := fc
  rfl

theorem sumC_append' (l1 l2 : List (String × Nat × Nat)) :
    sumC (l1 ++ l2) = sumC l1 + sumC l2 := by
  unfold sumC
  rw [List.map_append, List.sum_append]

theorem cumFrom_append (l1 l2 : List (String × Nat × Nat)) :
    ∀ start : Nat, cumFrom start (l1 ++ l2) = cumFrom start l1 ++ cumFrom (start + sumC l1) l2 := by
  induction l1 with
  | nil =>
    intro start
    simp [cumFrom, sumC]
  | cons e rest ih =>
    intro start
    rcases e with ⟨u, f, c⟩
    have h1 : cumFrom start ((u, f, c) :: (rest ++ l2))
        = (u, start) :: cumFrom (start + c) (rest ++ l2) := rfl
    have h2 : cumFrom start ((u, f, c) :: rest) = (u, start) :: cumFrom (start + c) rest := rfl
    have h3 : sumC ((u, f, c) :: rest) = c + sumC rest := rfl
    rw [List.cons_append, h1, h2, h3, ih (start + c), List.cons_append]
    have h4 : start + (c + sumC rest) = start + c + sumC rest := by omega
    rw [h4]

theorem outlinePages_nil : outlinePages [] = [] := rfl

theorem outlinePages_cons_art (d : Nat) (t : String) (p : Nat) (u : String)
    (l : List OEntry) :
    outlinePages (⟨d, t, p, some u⟩ :: l) = (u, p) :: outlinePages l := by
  unfold outlinePages
  rw [List.filterMap_cons]
  rfl

theorem outlinePages_cons_hdr (d : Nat) (t : String) (p : Nat) (l : List OEntry) :
    outlinePages (⟨d, t, p, none⟩ :: l) = outlinePages l := by
  unfold outlinePages
  rw [List.filterMap_cons]
  rfl

theorem outlinePages_append (l1 l2 : List OEntry) :
    outlinePages (l1 ++ l2) = outlinePages l1 ++ outlinePages l2 := by
  unfold outlinePages
  rw [List.filterMap_append]

theorem outlineArts_pages (g : GenMap) (d : Nat) :
    ∀ (arts : List Article) (cur : Nat),
      outlinePages (outlineArts g d arts cur).1 = cumFrom cur (artEntries g arts)
      ∧ (outlineArts g d arts cur).2 = cur + sumC (artEntries g arts)
  | [], cur => by
    rw [outlineArts_nil, artEntries_nil]
    exact ⟨rfl, rfl⟩
  | a :: rest, cur => by
    cases h : lookupG a.url g with
    | some fc =>
      rw [outlineArts_cons_some g d a rest cur fc h, artEntries_cons_some g a rest fc h]
      have ih := outlineArts_pages g d rest (cur + fc.2)
      constructor
      · rw [outlinePages_cons_art, ih.1, cumFrom_cons]
      · rw [ih.2, sumC_cons']
        omega
    | none =>
      rw [outlineArts_cons_none g d a rest cur h, artEntries_cons_none g a rest h]
      exact outlineArts_pages g d rest cur

theorem outlineSubs_pages (g : GenMap) :
    ∀ (sss : List SubSection) (cur : Nat),
      outlinePages (outlineSubs g sss cur).1
        = cumFrom cur (artEntries g (sss.flatMap SubSection.articles))
      ∧ (outlineSubs g sss cur).2 = cur + sumC (artEntries g (sss.flatMap SubSection.articles))
  | [], cur => ⟨rfl, rfl⟩
  | ss :: rest, cur => by
    rw [List.flatMap_cons, artEntries_append]
    unfold outlineSubs
    dsimp only
    have h1 := outlineArts_pages g 2 ss.articles cur
    have h2 := outlineSubs_pages g rest (outlineArts g 2 ss.articles cur).2
    constructor
    · rw [outlinePages_cons_hdr, outlinePages_append, h1.1, h2.1, h1.2,
        cumFrom_append]
    · rw [h2.2, h1.2, sumC_append']
      omega

theorem outlineSec_pages (g : GenMap) (s : Sect) (cur : Nat) :
    outlinePages (outlineSec g s cur).1
      = cumFrom cur (artEntries g (s.articles ++ s.sub_sections.flatMap SubSection.articles))
    ∧ (outlineSec g s cur).2
      = cur + sumC (artEntries g (s.articles ++ s.sub_sections.flatMap SubSection.articles)) := by
  unfold outlineSec
  dsimp only
  rw [artEntries_append]
  have h1 := outlineArts_pages g 1 s.articles cur
  have h2 := outlineSubs_pages g s.sub_sections (outlineArts g 1 s.articles cur).2
  constructor
  · rw [outlinePages_cons_hdr, outlinePages_append, h1.1, h2.1, h1.2, cumFrom_append]
  · rw [h2.2, h1.2, sumC_append']
    omega

theorem outlineSecs_pages (g : GenMap) :
    ∀ (secs : List Sect) (cur : Nat),
      outlinePages (outlineSecs g secs cur).1 = cumFrom cur (occEntries secs g)
      ∧ (outlineSecs g secs cur).2 = cur + sumC (occEntries secs g)
  | [], cur => ⟨rfl, rfl⟩
  | s :: rest, cur => by
    unfold occEntries flattenArticles
    rw [List.flatMap_cons, artEntries_append]
    unfold outlineSecs
    dsimp only
    have h1 := outlineSec_pages g s cur
    have h2 := outlineSecs_pages g rest (outlineSec g s cur).2
    unfold occEntries flattenArticles at h2
    constructor
    · rw [outlinePages_append, h1.1, h2.1, h1.2, cumFrom_append]
    · rw [h2.2, h1.2, sumC_append']
      omega

theorem artsPages_append (l1 l2 : List Article) :
    artsPages (l1 ++ l2) = artsPages l1 ++ artsPages l2 := by
  unfold artsPages
  rw [List.filterMap_append]

theorem artsPages_cons_upd (a : Article) (n : Nat) (l : List Article) :
    artsPages ({ a with page_num := some n } :: l) = (a.url, n) :: artsPages l := by
  unfold artsPages
  rw [List.filterMap_cons]
  rfl

theorem artsPages_cons_none (a : Article) (l : List Article) (h : a.page_num = none) :
    artsPages (a :: l) = artsPages l := by
  unfold artsPages
  rw [List.filterMap_cons, h]
  rfl

theorem assignArts_pages (g : GenMap) :
    ∀ (arts : List Article) (proc : List String) (cur : Nat),
      (∀ a ∈ arts, a.url ∉ proc) →
      ((arts.map Article.url).Nodup) →
      (∀ a ∈ arts, a.page_num = none) →
      artsPages (assignArts g arts proc cur).1 = cumFrom cur (artEntries g arts)
      ∧ (∃ ex, (assignArts g arts proc cur).2.1 = ex ++ proc
            ∧ ∀ u ∈ ex, u ∈ arts.map Article.url)
      ∧ (assignArts g arts proc cur).2.2 = cur + sumC (artEntries g arts)
  | [], proc, cur, _, _, _ => ⟨rfl, ⟨[], rfl, by simp⟩, rfl⟩
  | a :: rest, proc, cur, hdisj, hnd, hnone => by
    have hp : ¬(proc.contains a.url = true) := by
      intro hc
      exact hdisj a (by simp) ((contains_iff proc a.url).mp hc)
    rw [List.map_cons, List.nodup_cons] at hnd
    cases h : lookupG a.url g with
    | some fc =>
      rw [assignArts_cons_some g a rest proc cur fc hp h,
        artEntries_cons_some g a rest fc h]
      have ih := assignArts_pages g rest (a.url :: proc) (cur + fc.2)
        (fun b hb hmem => by
          rcases List.mem_cons.mp hmem with he | he
          · exact hnd.1 (he ▸ List.mem_map_of_mem Article.url hb)
          · exact hdisj b (by simp [hb]) he)
        hnd.2 (fun b hb => hnone b (by simp [hb]))
      refine ⟨?_, ?_, ?_⟩
      · rw [artsPages_cons_upd, ih.1, cumFrom_cons]
      · obtain ⟨ex, hex, hsub⟩ := ih.2.1
        refine ⟨ex ++ [a.url], by rw [hex, List.append_assoc]; rfl, ?_⟩
        intro u hu
        rcases List.mem_append.mp hu with hu | hu
        · simp only [List.map_cons, List.mem_cons]
          exact Or.inr (hsub u hu)
        · obtain rfl : u = a.url := by simpa using hu
          simp
      · rw [ih.2.2, sumC_cons']
        omega
    | none =>
      rw [assignArts_cons_none g a rest proc cur hp h, artEntries_cons_none g a rest h]
      have ih := assignArts_pages g rest proc cur
        (fun b hb => hdisj b (by simp [hb])) hnd.2 (fun b hb => hnone b (by simp [hb]))
      refine ⟨?_, ?_, ih.2.2⟩
      · rw [artsPages_cons_none a _ (hnone a (by simp)), ih.1]
      · obtain ⟨ex, hex, hsub⟩ := ih.2.1
        exact ⟨ex, hex, fun u hu => by
          simp only [List.map_cons, List.mem_cons]
          exact Or.inr (hsub u hu)⟩

theorem assignSubs_cons (g : GenMap) (ss : SubSection) (rest : List SubSection)
    (proc : List String) (cur : Nat) :
    assignSubs g (ss :: rest) proc cur
      = ({ ss with articles := (assignArts g ss.articles proc cur).1 }
           :: (assignSubs g rest (assignArts g ss.articles proc cur).2.1
                (assignArts g ss.articles proc cur).2.2).1,
         (assignSubs g rest (assignArts g ss.articles proc cur).2.1
                (assignArts g ss.articles proc cur).2.2).2) := rfl

theorem assignSecs_cons (g : GenMap) (s : Sect) (rest : List Sect)
    (proc : List String) (cur : Nat) :
    assignSecs g (s :: rest) proc cur
      = ((assignSec g s proc cur).1
           :: (assignSecs g rest (assignSec g s proc cur).2.1
                (assignSec g s proc cur).2.2).1,
         (assignSecs g rest (assignSec g s proc cur).2.1
                (assignSec g s proc cur).2.2).2) := rfl

theorem assignSubs_pages (g : GenMap) :
    ∀ (sss : List SubSection) (proc : List String) (cur : Nat),
      (∀ a ∈ sss.flatMap SubSection.articles, a.url ∉ proc) →
      ((sss.flatMap SubSection.articles).map Article.url).Nodup →
      (∀ a ∈ sss.flatMap SubSection.articles, a.page_num = none) →
      artsPages ((assignSubs g sss proc cur).1.flatMap SubSection.articles)
          = cumFrom cur (artEntries g (sss.flatMap SubSection.articles))
      ∧ (∃ ex, (assignSubs g sss proc cur).2.1 = ex ++ proc
            ∧ ∀ u ∈ ex, u ∈ (sss.flatMap SubSection.articles).map Article.url)
      ∧ (assignSubs g sss proc cur).2.2
          = cur + sumC (artEntries g (sss.flatMap SubSection.articles))
  | [], proc, cur, _, _, _ => ⟨rfl, ⟨[], rfl, by simp⟩, rfl⟩
  | ss :: rest, proc, cur, hdisj, hnd, hnone => by
    rw [List.flatMap_cons] at hdisj hnd hnone ⊢
    rw [List.map_append, List.nodup_append] at hnd
    have h1 := assignArts_pages g ss.articles proc cur
      (fun a ha => hdisj a (List.mem_append_left _ ha)) hnd.1
      (fun a ha => hnone a (List.mem_append_left _ ha))
    obtain ⟨ex1, hex1, hsub1⟩ := h1.2.1
    have hdisj2 : ∀ a ∈ rest.flatMap SubSection.articles,
        a.url ∉ (assignArts g ss.articles proc cur).2.1 := by
      intro a ha hmem
      rw [hex1] at hmem
      rcases List.mem_append.mp hmem with hm | hm
      · exact hnd.2.2 (hsub1 a.url hm) (List.mem_map_of_mem Article.url ha)
      · exact hdisj a (List.mem_append_right _ ha) hm
    have h2 := assignSubs_pages g rest (assignArts g ss.articles proc cur).2.1
      (assignArts g ss.articles proc cur).2.2 hdisj2 hnd.2.1
      (fun a ha => hnone a (List.mem_append_right _ ha))
    rw [assignSubs_cons]
    refine ⟨?_, ?_, ?_⟩
    · rw [List.flatMap_cons]
      show artsPages ((assignArts g ss.articles proc cur).1 ++ _) = _
      rw [artsPages_append, h1.1, h2.1, h1.2.2, artEntries_append, cumFrom_append]
    · obtain ⟨ex2, hex2, hsub2⟩ := h2.2.1
      refine ⟨ex2 ++ ex1, by rw [hex2, hex1, List.append_assoc], ?_⟩
      intro u hu
      rw [List.map_append, List.mem_append]
      rcases List.mem_append.mp hu with hu | hu
      · exact Or.inr (hsub2 u hu)
      · exact Or.inl (hsub1 u hu)
    · rw [h2.2.2, h1.2.2, artEntries_append, sumC_append']
      omega

theorem assignSec_pages (g : GenMap) (s : Sect) (proc : List String) (cur : Nat)
    (hdisj : ∀ a ∈ s.articles ++ s.sub_sections.flatMap SubSection.articles, a.url ∉ proc)
    (hnd : (((s.articles ++ s.sub_sections.flatMap SubSection.articles)).map Article.url).Nodup)
    (hnone : ∀ a ∈ s.articles ++ s.sub_sections.flatMap SubSection.articles,
        a.page_num = none) :
    artsPages ((assignSec g s proc cur).1.articles
        ++ (assignSec g s proc cur).1.sub_sections.flatMap SubSection.articles)
      = cumFrom cur (artEntries g (s.articles ++ s.sub_sections.flatMap SubSection.articles))
    ∧ (∃ ex, (assignSec g s proc cur).2.1 = ex ++ proc
          ∧ ∀ u ∈ ex, u ∈ ((s.articles ++ s.sub_sections.flatMap SubSection.articles)).map
              Article.url)
    ∧ (assignSec g s proc cur).2.2
      = cur + sumC (artEntries g (s.articles ++ s.sub_sections.flatMap SubSection.articles)) := by
  rw [List.map_append, List.nodup_append] at hnd
  have h1 := assignArts_pages g s.articles proc cur
    (fun a ha => hdisj a (List.mem_append_left _ ha)) hnd.1
    (fun a ha => hnone a (List.mem_append_left _ ha))
  obtain ⟨ex1, hex1, hsub1⟩ := h1.2.1
  have hdisj2 : ∀ a ∈ s.sub_sections.flatMap SubSection.articles,
      a.url ∉ (assignArts g s.articles proc cur).2.1 := by
    intro a ha hmem
    rw [hex1] at hmem
    rcases List.mem_append.mp hmem with hm | hm
    · exact hnd.2.2 (hsub1 a.url hm) (List.mem_map_of_mem Article.url ha)
    · exact hdisj a (List.mem_append_right _ ha) hm
  have h2 := assignSubs_pages g s.sub_sections (assignArts g s.articles proc cur).2.1
    (assignArts g s.articles proc cur).2.2 hdisj2 hnd.2.1
    (fun a ha => hnone a (List.mem_append_right _ ha))
  unfold assignSec
  dsimp only
  refine ⟨?_, ?_, ?_⟩
  · rw [artsPages_append, h1.1, h2.1, h1.2.2, artEntries_append, cumFrom_append]
  · obtain ⟨ex2, hex2, hsub2⟩ := h2.2.1
    refine ⟨ex2 ++ ex1, by rw [hex2, hex1, List.append_assoc], ?_⟩
    intro u hu
    rw [List.map_append, List.mem_append]
    rcases List.mem_append.mp hu with hu | hu
    · exact Or.inr (hsub2 u hu)
    · exact Or.inl (hsub1 u hu)
  · rw [h2.2.2, h1.2.2, artEntries_append, sumC_append']
    omega

theorem assignSecs_pages (g : GenMap) :
    ∀ (secs : List Sect) (proc : List String) (cur : Nat),
      (∀ a ∈ flattenArticles secs, a.url ∉ proc) →
      ((flattenArticles secs).map Article.url).Nodup →
      (∀ a ∈ flattenArticles secs, a.page_num = none) →
      artsPages (flattenArticles (assignSecs g secs proc cur).1)
          = cumFrom cur (occEntries secs g)
      ∧ (assignSecs g secs proc cur).2.2 = cur + sumC (occEntries secs g)
  | [], proc, cur, _, _, _ => ⟨rfl, rfl⟩
  | s :: rest, proc, cur, hdisj, hnd, hnone => by
    unfold flattenArticles at hdisj hnd hnone
    rw [List.flatMap_cons] at hdisj hnd hnone
    rw [List.map_append, List.nodup_append] at hnd
    have h1 := assignSec_pages g s proc cur
      (fun a ha => hdisj a (List.mem_append_left _ ha)) hnd.1
      (fun a ha => hnone a (List.mem_append_left _ ha))
    obtain ⟨ex1, hex1, hsub1⟩ := h1.2.1
    have hdisj2 : ∀ a ∈ flattenArticles rest, a.url ∉ (assignSec g s proc cur).2.1 := by
      intro a ha hmem
      rw [hex1] at hmem
      rcases List.mem_append.mp hmem with hm | hm
      · exact hnd.2.2 (hsub1 a.url hm) (List.mem_map_of_mem Article.url ha)
      · exact hdisj a (List.mem_append_right _ ha) hm
    have h2 := assignSecs_pages g rest (assignSec g s proc cur).2.1
      (assignSec g s proc cur).2.2 hdisj2 hnd.2.1
      (fun a ha => hnone a (List.mem_append_right _ ha))
    rw [assignSecs_cons]
    constructor
    · show artsPages ((fun s => s.articles ++ s.sub_sections.flatMap SubSection.articles)
          (assignSec g s proc cur).1 ++ flattenArticles (assignSecs g rest _ _).1) = _
      rw [artsPages_append]
      unfold occEntries flattenArticles
      rw [List.flatMap_cons, artEntries_append]
      unfold occEntries flattenArticles at h2
      rw [h1.1, h2.1, h1.2.2, cumFrom_append]
    · unfold occEntries flattenArticles
      rw [List.flatMap_cons, artEntries_append, sumC_append']
      unfold occEntries flattenArticles at h2
      rw [h2.2, h1.2.2]
      omega

/-- **C2, amended** (the claim as stated is refuted by `C2_counterexample`).
When the actual page count of the rendered index artifact equals the
builder's estimate `max(1, total_articles // 45 + 1)` — and the tree's urls
are distinct, with no pre-existing annotations — the index builder's page
numbers and the merger's outline offsets agree for every article: both equal
the cumulative page count of the preceding artifacts in the shared traversal
order. -/
theorem C2_offsets_agree_when_estimate_exact :
    ∀ (secs : List Sect) (g : GenMap) (cover ip : Nat),
      ((flattenArticles secs).map Article.url).Nodup →
      (∀ a ∈ flattenArticles secs, a.page_num = none) →
      ip = estimated_index_pages secs →
      assignedPages (create_index_html secs g cover).1
        = outlinePages (mergeOutline secs g (cover + ip)).1 := by
  intro secs g cover ip hnd hnone hip
  have hb := assignSecs_pages g secs [] (cover + estimated_index_pages secs)
    (by simp) hnd hnone
  have hm := outlineSecs_pages g secs (cover + ip)
  unfold create_index_html assignedPages mergeOutline
  dsimp only
  rw [hb.1, hm.1, hip]

/-- **C2, counterexample.**  The index builder offsets pages with an
*estimated* index page count (utils.py line 65), while the merger uses the
index artifact's *actual* page count (pdf_merger.py lines 24-26, 46).  With
one 3-page article, cover = 1 page and an index that rendered to 2 pages, the
builder assigns page 2 while the merger's outline points at page 3. -/
theorem C2_counterexample : ¬claimIndexMergerAgree := by
  intro h
  have h0 := h cexTree cexMap 1 2 (by decide) (by decide)
  exact absurd h0 (by decide)

/-- Witness for `C2_offsets_agree_when_estimate_exact` at a concrete tree
whose index estimate (1 page) matches the actual index page count. -/
theorem C2_check :
    ((flattenArticles cexTree).map Article.url).Nodup
    ∧ (∀ a ∈ flattenArticles cexTree, a.page_num = none)
    ∧ (1 : Nat) = estimated_index_pages cexTree
    ∧ assignedPages (create_index_html cexTree cexMap 1).1
        = outlinePages (mergeOutline cexTree cexMap (1 + 1)).1 :=
  ⟨by decide, by decide, by decide,
   C2_offsets_agree_when_estimate_exact cexTree cexMap 1 1 (by decide) (by decide) (by decide)⟩

/-! ## Claim C10: shared artifacts are appended once per URL -/

theorem artEntries_map_file (g : GenMap) :
    ∀ arts : List Article,
      (artEntries g arts).map (fun e => e.2.1)
        = arts.filterMap (fun a => (lookupG a.url g).map Prod.fst)
  | [] => rfl
  | a :: rest => by
    cases h : lookupG a.url g with
    | some fc =>
      rw [artEntries_cons_some g a rest fc h, List.map_cons, artEntries_map_file g rest,
        List.filterMap_cons, h]
      rfl
    | none =>
      rw [artEntries_cons_none g a rest h, artEntries_map_file g rest,
        List.filterMap_cons, h]
      rfl

theorem files_sub_eq (g : GenMap) :
    ∀ sss : List SubSection,
      sss.flatMap (fun ss => ss.articles.filterMap (fun a => (lookupG a.url g).map Prod.fst))
        = (artEntries g (sss.flatMap SubSection.articles)).map (fun e => e.2.1)
  | [] => rfl
  | ss :: rest => by
    rw [List.flatMap_cons, List.flatMap_cons, artEntries_append, List.map_append,
      artEntries_map_file, files_sub_eq g rest]

theorem files_eq_occ (g : GenMap) :
    ∀ secs : List Sect, files_to_append secs g = (occEntries secs g).map (fun e => e.2.1)
  | [] => rfl
  | s :: rest => by
    have hrest := files_eq_occ g rest
    unfold files_to_append occEntries flattenArticles at hrest ⊢
    rw [List.flatMap_cons, List.flatMap_cons, artEntries_append, List.map_append, hrest,
      artEntries_append, List.map_append, artEntries_map_file g s.articles, files_sub_eq]

/-- **C10** (confirmed).  (1) The merger appends one artifact per mapped
article occurrence in traversal order, so two distinct urls sharing one
artifact reference cause that artifact to be appended once per url; with the
two occurrences adjacent, the artifact's id occurs at least twice in the
append list.  (2) The merger's outline offsets place the two occurrences `c`
pages apart — the shared artifact's page count advances the offset at each
occurrence.  (3) Under the tree invariant, the index builder's page numbers
advance identically. -/
theorem C10_shared_artifact_appended_per_url :
    (∀ (secs : List Sect) (g : GenMap),
        files_to_append secs g = (occEntries secs g).map (fun e => e.2.1))
    ∧ (∀ (secs : List Sect) (g : GenMap) (start : Nat)
          (pre post : List (String × Nat × Nat)) (u u' : String) (f c : Nat),
        occEntries secs g = pre ++ (u, f, c) :: (u', f, c) :: post →
        2 ≤ (files_to_append secs g).count f
        ∧ outlinePages (mergeOutline secs g start).1
            = cumFrom start pre
              ++ (u, start + sumC pre) :: (u', start + sumC pre + c)
              :: cumFrom (start + sumC pre + c + c) post)
    ∧ (∀ (secs : List Sect) (g : GenMap) (cover : Nat)
          (pre post : List (String × Nat × Nat)) (u u' : String) (f c : Nat),
        ((flattenArticles secs).map Article.url).Nodup →
        (∀ a ∈ flattenArticles secs, a.page_num = none) →
        occEntries secs g = pre ++ (u, f, c) :: (u', f, c) :: post →
        assignedPages (create_index_html secs g cover).1
          = cumFrom (cover + estimated_index_pages secs) pre
            ++ (u, cover + estimated_index_pages secs + sumC pre)
            :: (u', cover + estimated_index_pages secs + sumC pre + c)
            :: cumFrom (cover + estimated_index_pages secs + sumC pre + c + c) post) := by
  refine ⟨fun secs g => files_eq_occ g secs, ?_, ?_⟩
  · intro secs g start pre post u u' f c hocc
    constructor
    · rw [files_eq_occ g secs, hocc, List.map_append]
      simp only [List.count_append, List.map_cons, List.count_cons, beq_self_eq_true,
        if_true]
      omega
    · have hm := outlineSecs_pages g secs start
      show outlinePages (outlineSecs g secs start).1 = _
      rw [hm.1, hocc, cumFrom_append]
      show cumFrom start pre ++ (u, start + sumC pre)
          :: (u', start + sumC pre + c) :: cumFrom (start + sumC pre + c + c) post = _
      rfl
  · intro secs g cover pre post u u' f c hnd hnone hocc
    have hb := assignSecs_pages g secs [] (cover + estimated_index_pages secs)
      (by simp) hnd hnone
    unfold create_index_html assignedPages
    dsimp only
    rw [hb.1, hocc, cumFrom_append]
    rfl

/-- Witness for `C10_shared_artifact_appended_per_url`: `u1` and `u2` share
artifact 0 with 3 pages. -/
theorem C10_check :
    occEntries sharedTree sharedMap = [] ++ ("u1", 0, 3) :: ("u2", 0, 3) :: []
    ∧ files_to_append sharedTree sharedMap
        = (occEntries sharedTree sharedMap).map (fun e => e.2.1)
    ∧ 2 ≤ (files_to_append sharedTree sharedMap).count 0
    ∧ outlinePages (mergeOutline sharedTree sharedMap 4).1
        = cumFrom 4 [] ++ ("u1", 4 + sumC []) :: ("u2", 4 + sumC [] + 3)
          :: cumFrom (4 + sumC [] + 3 + 3) []
    ∧ assignedPages (create_index_html sharedTree sharedMap 1).1
        = cumFrom (1 + estimated_index_pages sharedTree) []
          ++ ("u1", 1 + estimated_index_pages sharedTree + sumC [])
          :: ("u2", 1 + estimated_index_pages sharedTree + sumC [] + 3)
          :: cumFrom (1 + estimated_index_pages sharedTree + sumC [] + 3 + 3) [] :=
  ⟨by decide,
   C10_shared_artifact_appended_per_url.1 sharedTree sharedMap,
   (C10_shared_artifact_appended_per_url.2.1 sharedTree sharedMap 4 [] []
      "u1" "u2" 0 3 (by decide)).1,
   (C10_shared_artifact_appended_per_url.2.1 sharedTree sharedMap 4 [] []
      "u1" "u2" 0 3 (by decide)).2,
   C10_shared_artifact_appended_per_url.2.2 sharedTree sharedMap 1 [] []
      "u1" "u2" 0 3 (by decide) (by decide) (by decide)⟩

/-! ## Claim C1: every article URL appears at most once -/

theorem collectOne_inv (st : PassState) (l : Link) (h : passInv st) :
    passInv (collectOne st l) := by
  unfold collectOne
  cases hn : normNavHref l.href with
  | none => exact h
  | some s =>
    dsimp only
    by_cases hc : st.seen.contains s = true
    · rw [if_pos hc]
      exact h
    · rw [if_neg hc]
      have hns : s ∉ st.seen := fun hm => hc ((contains_iff _ _).mpr hm)
      unfold passInv at h ⊢
      constructor
      · rw [List.map_append, List.nodup_append]
        refine ⟨h.1, by simp, ?_⟩
        intro x hx hxs
        obtain rfl : x = s := by simpa using hxs
        obtain ⟨l', hl', he⟩ := List.mem_map.mp hx
        exact hns (he ▸ h.2 l' hl')
      · intro l' hl'
        rcases List.mem_append.mp hl' with hm | hm
        · exact List.mem_cons_of_mem s (h.2 l' hm)
        · obtain rfl : l' = ⟨s, l.title⟩ := by simpa using hm
          exact List.mem_cons_self _ _

theorem collectFold_inv :
    ∀ (links : List Link) (st : PassState), passInv st →
      passInv (links.foldl collectOne st)
  | [], _, h => h
  | l :: rest, st, h => by
    rw [List.foldl_cons]
    exact collectFold_inv rest (collectOne st l) (collectOne_inv st l h)

theorem postCheck_inv (st : PassState) (h : passInv st) : passInv (postCheck st) := by
  unfold postCheck
  split
  · exact h
  · exact h

theorem passStep_inv (env : NavEnv) (down : Bool) (st : PassState) (h : passInv st) :
    passInv ((passStep env down st).2) := by
  unfold passStep
  dsimp only
  set st1 := List.foldl collectOne { st with steps := st.steps + 1 } (env.render st.steps st.pos)
    with hst1
  have h1 : passInv st1 := by
    rw [hst1]
    exact collectFold_inv _ _ h
  by_cases hedge : atEdge env down st1.pos = true
  · rw [if_pos hedge]
    by_cases hst : 3 ≤ st1.stable + 1
    · rw [if_pos hst]
      exact h1
    · rw [if_neg hst]
      exact postCheck_inv _ h1
  · rw [if_neg hedge]
    exact postCheck_inv _ h1

theorem runPassAux_inv (env : NavEnv) (down : Bool) :
    ∀ (n : Nat) (st : PassState), passInv st → passInv ((runPassAux env down n st).2)
  | 0, _, h => h
  | n + 1, st, h => by
    simp only [runPassAux]
    by_cases hr : (passStep env down st).1 = true
    · rw [if_pos hr]
      exact passStep_inv env down st h
    · rw [if_neg hr]
      exact runPassAux_inv env down n (passStep env down st).2 (passStep_inv env down st h)

theorem mapUrls_cons (k : String) (sd : SecData) (m : SectionsMap) :
    mapUrls ((k, sd) :: m) = secUrls sd ++ mapUrls m := by
  unfold mapUrls
  rw [List.flatMap_cons]

theorem mapUrls_ensure (n : String) (m : SectionsMap) :
    mapUrls (ensure_section n m) = mapUrls m := by
  unfold ensure_section
  split
  · rfl
  · unfold mapUrls
    rw [List.flatMap_append]
    simp [secUrls]

theorem lookup_ensure (n : String) (m : SectionsMap) :
    ((ensure_section n m).lookup n).isSome = true := by
  unfold ensure_section
  split
  · assumption
  · rename_i hnil
    have hnone : m.lookup n = none := by
      cases h : m.lookup n
      · rfl
      · exact absurd (by rw [h]; rfl) hnil
    rw [lookup_append_none _ _ _ hnone, lookup_cons_self]
    rfl

theorem keys_setAt (n : String) (f : SecData → SecData) :
    ∀ m : SectionsMap, (setAt n f m).map Prod.fst = m.map Prod.fst
  | [] => rfl
  | (k, v) :: rest => by
    unfold setAt
    by_cases hk : k == n
    · rw [if_pos hk]
      rfl
    · rw [if_neg hk]
      rw [List.map_cons, List.map_cons, keys_setAt n f rest]

theorem keys_ensure_cases (n : String) (m : SectionsMap) :
    (ensure_section n m).map Prod.fst = m.map Prod.fst
    ∨ ((ensure_section n m).map Prod.fst = m.map Prod.fst ++ [n] ∧ n ∉ m.map Prod.fst) := by
  unfold ensure_section
  split
  · exact Or.inl rfl
  · rename_i hnil
    refine Or.inr ⟨by rw [List.map_append]; rfl, fun hm => hnil ?_⟩
    exact (lookup_isSome_iff m n).mpr hm

theorem ensure_mem (n : String) (m : SectionsMap) (p : String × SecData)
    (h : p ∈ ensure_section n m) : p ∈ m ∨ p.2 = ⟨[], []⟩ := by
  unfold ensure_section at h
  split at h
  · exact Or.inl h
  · rcases List.mem_append.mp h with hm | hm
    · exact Or.inl hm
    · right
      obtain rfl : p = (n, ⟨[], []⟩) := by simpa using hm
      rfl

theorem setAt_mem (n : String) (f : SecData → SecData) :
    ∀ (m : SectionsMap) (p : String × SecData), p ∈ setAt n f m →
      p ∈ m ∨ ∃ q, q ∈ m ∧ p = (q.1, f q.2)
  | [], p, h => absurd h (by simp [setAt])
  | (k, v) :: rest, p, h => by
    unfold setAt at h
    by_cases hk : k == n
    · rw [if_pos hk] at h
      rcases List.mem_cons.mp h with he | hm
      · exact Or.inr ⟨(k, v), by simp, he⟩
      · exact Or.inl (List.mem_cons_of_mem _ hm)
    · rw [if_neg hk] at h
      rcases List.mem_cons.mp h with he | hm
      · exact Or.inl (he ▸ List.mem_cons_self _ _)
      · rcases setAt_mem n f rest p hm with h1 | ⟨q, hq, he⟩
        · exact Or.inl (List.mem_cons_of_mem _ h1)
        · exact Or.inr ⟨q, List.mem_cons_of_mem _ hq, he⟩

theorem setAt_perm (n : String) (f : SecData → SecData) (u : String)
    (hf : ∀ sd, (secUrls (f sd)).Perm (u :: secUrls sd)) :
    ∀ m : SectionsMap, ((m.lookup n).isSome = true) →
      (mapUrls (setAt n f m)).Perm (u :: mapUrls m)
  | [], h => by simp at h
  | (k, v) :: rest, h => by
    unfold setAt
    by_cases hk : k == n
    · rw [if_pos hk, mapUrls_cons, mapUrls_cons]
      show (secUrls (f v) ++ mapUrls rest).Perm ((u :: secUrls v) ++ mapUrls rest)
      exact (hf v).append_right _
    · rw [if_neg hk, mapUrls_cons, mapUrls_cons]
      have hne : ¬n = k := fun he => hk (by simp [he])
      rw [lookup_cons_ne _ _ _ _ hne] at h
      exact ((setAt_perm n f u hf rest h).append_left (secUrls v)).trans List.perm_middle

theorem add_article_perm (m : SectionsMap) (n t u : String) :
    (mapUrls (add_article m n t u)).Perm (u :: mapUrls m) := by
  unfold add_article
  have hperm := setAt_perm n
    (fun sd => { sd with articles := sd.articles ++ [⟨t, u, none⟩] }) u
    (fun sd => by
      unfold secUrls
      dsimp only
      rw [List.map_append, List.append_assoc]
      exact List.perm_middle)
    (ensure_section n m) (lookup_ensure n m)
  rw [mapUrls_ensure] at hperm
  exact hperm

theorem addToSub_flat_perm (sub : String) (a : Article) :
    ∀ sm : List (String × List Article),
      ((addToSub sub a sm).flatMap (fun q => q.2.map Article.url)).Perm
        (a.url :: sm.flatMap (fun q => q.2.map Article.url))
  | [] => by simp [addToSub]
  | (k, v) :: rest => by
    unfold addToSub
    by_cases hk : k == sub
    · rw [if_pos hk, List.flatMap_cons, List.flatMap_cons]
      dsimp only
      rw [List.map_append, List.append_assoc]
      exact List.perm_middle
    · rw [if_neg hk, List.flatMap_cons, List.flatMap_cons]
      exact ((addToSub_flat_perm sub a rest).append_left (v.map Article.url)).trans
        List.perm_middle

theorem add_sub_article_perm (m : SectionsMap) (n sub t u : String) :
    (mapUrls (add_sub_article m n sub t u)).Perm (u :: mapUrls m) := by
  unfold add_sub_article
  have hperm := setAt_perm n
    (fun sd => { sd with sub_map := addToSub sub ⟨t, u, none⟩ sd.sub_map }) u
    (fun sd => by
      unfold secUrls
      dsimp only
      exact ((addToSub_flat_perm sub ⟨t, u, none⟩ sd.sub_map).append_left
        (sd.articles.map Article.url)).trans List.perm_middle)
    (ensure_section n m) (lookup_ensure n m)
  rw [mapUrls_ensure] at hperm
  exact hperm

theorem addToSub_keys (sub : String) (a : Article) :
    ∀ sm : List (String × List Article),
      (addToSub sub a sm).map Prod.fst = sm.map Prod.fst
      ∨ ((addToSub sub a sm).map Prod.fst = sm.map Prod.fst ++ [sub]
          ∧ sub ∉ sm.map Prod.fst)
  | [] => Or.inr ⟨rfl, by simp⟩
  | (k, v) :: rest => by
    unfold addToSub
    by_cases hk : k == sub
    · rw [if_pos hk]
      exact Or.inl rfl
    · rw [if_neg hk]
      rcases addToSub_keys sub a rest with h1 | ⟨h1, h2⟩
      · left
        rw [List.map_cons, List.map_cons, h1]
      · right
        refine ⟨by rw [List.map_cons, List.map_cons, h1]; rfl, ?_⟩
        intro hm
        rcases List.mem_cons.mp hm with he | hm2
        · have hks : k = sub := he.symm
          exact hk (by simp [hks])
        · exact h2 hm2

theorem nodup_append_singleton {α : Type} (l : List α) (x : α) (h : l.Nodup)
    (hn : x ∉ l) : (l ++ [x]).Nodup := by
  rw [List.nodup_append]
  refine ⟨h, by simp, ?_⟩
  intro a ha hax
  obtain rfl : a = x := by simpa using hax
  exact hn ha

theorem keys_nodup_ensure (m : SectionsMap) (n : String) (h : (m.map Prod.fst).Nodup) :
    ((ensure_section n m).map Prod.fst).Nodup := by
  rcases keys_ensure_cases n m with h1 | ⟨h1, h2⟩
  · rw [h1]
    exact h
  · rw [h1]
    exact nodup_append_singleton _ _ h h2

theorem addToSub_keys_nodup (sub : String) (a : Article)
    (sm : List (String × List Article)) (h : (sm.map Prod.fst).Nodup) :
    ((addToSub sub a sm).map Prod.fst).Nodup := by
  rcases addToSub_keys sub a sm with h1 | ⟨h1, h2⟩
  · rw [h1]
    exact h
  · rw [h1]
    exact nodup_append_singleton _ _ h h2

theorem clsInv_keep (acc : List String × SectionsMap) (s : String) (h : clsInv acc) :
    clsInv (s :: acc.1, acc.2) := by
  unfold clsInv at h ⊢
  exact ⟨h.1, fun u hu => List.mem_cons_of_mem _ (h.2.1 u hu), h.2.2⟩

theorem clsInv_add_article (acc : List String × SectionsMap) (n t u : String)
    (h : clsInv acc) (hu : u ∉ acc.1) :
    clsInv (u :: acc.1, add_article acc.2 n t u) := by
  unfold clsInv at h ⊢
  have hperm := add_article_perm acc.2 n t u
  refine ⟨?_, ?_, ?_, ?_⟩
  · refine hperm.symm.nodup ?_
    rw [List.nodup_cons]
    exact ⟨fun hm => hu (h.2.1 u hm), h.1⟩
  · intro x hx
    rcases List.mem_cons.mp (hperm.mem_iff.mp hx) with he | hm
    · rw [he]
      exact List.mem_cons_self _ _
    · exact List.mem_cons_of_mem _ (h.2.1 x hm)
  · show ((add_article acc.2 n t u).map Prod.fst).Nodup
    unfold add_article
    rw [keys_setAt]
    exact keys_nodup_ensure acc.2 n h.2.2.1
  · intro p hp
    unfold add_article at hp
    rcases setAt_mem _ _ _ p hp with h1 | ⟨q, hq, he⟩
    · rcases ensure_mem n acc.2 p h1 with h2 | h2
      · exact h.2.2.2 p h2
      · rw [h2]
        exact List.nodup_nil
    · rcases ensure_mem n acc.2 q hq with h2 | h2
      · rw [he]
        exact h.2.2.2 q h2
      · rw [he, h2]
        exact List.nodup_nil

theorem clsInv_add_sub_article (acc : List String × SectionsMap) (n s t u : String)
    (h : clsInv acc) (hu : u ∉ acc.1) :
    clsInv (u :: acc.1, add_sub_article acc.2 n s t u) := by
  unfold clsInv at h ⊢
  have hperm := add_sub_article_perm acc.2 n s t u
  refine ⟨?_, ?_, ?_, ?_⟩
  · refine hperm.symm.nodup ?_
    rw [List.nodup_cons]
    exact ⟨fun hm => hu (h.2.1 u hm), h.1⟩
  · intro x hx
    rcases List.mem_cons.mp (hperm.mem_iff.mp hx) with he | hm
    · rw [he]
      exact List.mem_cons_self _ _
    · exact List.mem_cons_of_mem _ (h.2.1 x hm)
  · show ((add_sub_article acc.2 n s t u).map Prod.fst).Nodup
    unfold add_sub_article
    rw [keys_setAt]
    exact keys_nodup_ensure acc.2 n h.2.2.1
  · intro p hp
    unfold add_sub_article at hp
    rcases setAt_mem _ _ _ p hp with h1 | ⟨q, hq, he⟩
    · rcases ensure_mem n acc.2 p h1 with h2 | h2
      · exact h.2.2.2 p h2
      · rw [h2]
        exact List.nodup_nil
    · rcases ensure_mem n acc.2 q hq with h2 | h2
      · rw [he]
        exact addToSub_keys_nodup s ⟨t, u, none⟩ q.2.sub_map (h.2.2.2 q h2)
      · rw [he, h2]
        exact addToSub_keys_nodup s ⟨t, u, none⟩ [] List.nodup_nil

theorem classifyOne_inv (env : ClassEnv) (item : Link) (acc : List String × SectionsMap)
    (h : clsInv acc) : clsInv (classifyOne env acc item) := by
  unfold classifyOne
  by_cases hc : acc.1.contains (urljoinApprox base_url (stripFrag item.href)) = true
  · rw [if_pos hc]
    exact h
  · rw [if_neg hc]
    have hu : urljoinApprox base_url (stripFrag item.href) ∉ acc.1 :=
      fun hm => hc ((contains_iff _ _).mpr hm)
    dsimp only
    split
    · split
      · split
        · exact clsInv_keep acc _ h
        · split
          · exact clsInv_keep acc _ h
          · split
            · exact clsInv_keep acc _ h
            · split
              · exact clsInv_keep acc _ h
              · split
                · split
                  · exact clsInv_add_sub_article acc _ _ _ _ h hu
                  · exact clsInv_add_article acc _ _ _ h hu
                · exact clsInv_add_article acc _ _ _ h hu
      · exact clsInv_keep acc _ h
    · exact clsInv_keep acc _ h

theorem classifyFold_inv (env : ClassEnv) :
    ∀ (links : List Link) (acc : List String × SectionsMap), clsInv acc →
      clsInv (links.foldl (classifyOne env) acc)
  | [], _, h => h
  | l :: rest, acc, h => by
    rw [List.foldl_cons]
    exact classifyFold_inv env rest (classifyOne env acc l) (classifyOne_inv env l acc h)

theorem flatMap_subperm {α β : Type} (f g : α → List β) :
    ∀ l : List α, (∀ x ∈ l, (f x).Subperm (g x)) → (l.flatMap f).Subperm (l.flatMap g)
  | [], _ => List.Subperm.refl []
  | a :: rest, h => by
    rw [List.flatMap_cons, List.flatMap_cons]
    exact subperm_append (h a (by simp))
      (flatMap_subperm f g rest (fun x hx => h x (by simp [hx])))

theorem lookup_middle_ne {β : Type} (m₁ m₂ : List (String × β)) (n k : String) (v : β)
    (hne : ¬k = n) : (m₁ ++ (n, v) :: m₂).lookup k = (m₁ ++ m₂).lookup k := by
  cases h : m₁.lookup k with
  | some w => rw [lookup_append_some _ _ _ _ h, lookup_append_some _ _ _ _ h]
  | none =>
    rw [lookup_append_none _ _ _ h, lookup_append_none _ _ _ h, lookup_cons_ne _ _ _ _ hne]

theorem pick_extras_subperm {β : Type} (valF outK outE : String → β → List String) :
    ∀ (names : List String) (m : List (String × β)),
      names.Nodup → (m.map Prod.fst).Nodup →
      (∀ k v, (k, v) ∈ m → (outK k v).Subperm (valF k v)) →
      (∀ k v, (k, v) ∈ m → (outE k v).Subperm (valF k v)) →
      ((names.filterMap (fun n => (m.lookup n).map (outK n))).flatten
        ++ (m.filter (fun p => !(names.contains p.1))).flatMap (fun p => outE p.1 p.2)).Subperm
        (m.flatMap (fun p => valF p.1 p.2))
  | [], m, _, _, _, hE => by
    rw [List.filterMap_nil]
    have hfil : m.filter (fun p => !(([] : List String).contains p.1)) = m :=
      List.filter_eq_self.mpr (fun p _ => rfl)
    rw [hfil]
    show ([] ++ m.flatMap fun p => outE p.1 p.2).Subperm _
    rw [List.nil_append]
    exact flatMap_subperm _ _ m (fun p hp => hE p.1 p.2 hp)
  | n :: rest, m, hnd, hndm, hK, hE => by
    rw [List.nodup_cons] at hnd
    cases hl : m.lookup n with
    | none =>
      have hfm : (n :: rest).filterMap (fun n' => (m.lookup n').map (outK n'))
          = rest.filterMap (fun n' => (m.lookup n').map (outK n')) := by
        rw [List.filterMap_cons, hl]
        rfl
      have hkey : n ∉ m.map Prod.fst := fun hm => by
        have h1 := (lookup_isSome_iff m n).mpr hm
        rw [hl] at h1
        simp at h1
      have hfil : m.filter (fun p => !((n :: rest).contains p.1))
          = m.filter (fun p => !(rest.contains p.1)) := by
        refine List.filter_congr (fun p hp => ?_)
        have hpn : (p.1 == n) = false := by
          by_cases hbe : p.1 = n
          · exact absurd (hbe ▸ List.mem_map_of_mem Prod.fst hp) hkey
          · simpa using hbe
        rw [List.contains_cons, hpn]
        rfl
      rw [hfm, hfil]
      exact pick_extras_subperm valF outK outE rest m hnd.2 hndm hK hE
    | some v =>
      obtain ⟨m₁, m₂, rfl, hk1, hk2⟩ := lookup_extract m n v hndm hl
      have hfm : (n :: rest).filterMap
            (fun n' => ((m₁ ++ (n, v) :: m₂).lookup n').map (outK n'))
          = outK n v :: rest.filterMap
              (fun n' => ((m₁ ++ m₂).lookup n').map (outK n')) := by
        rw [List.filterMap_cons, hl]
        refine congrArg _ (List.filterMap_congr (fun x hx => ?_))
        rw [lookup_middle_ne m₁ m₂ n x v (fun he => hnd.1 (he ▸ hx))]
      have hext : (m₁ ++ (n, v) :: m₂).filter (fun p => !((n :: rest).contains p.1))
          = (m₁ ++ m₂).filter (fun p => !(rest.contains p.1)) := by
        have hc1 : ∀ (mm : List (String × β)), n ∉ mm.map Prod.fst →
            mm.filter (fun p => !((n :: rest).contains p.1))
              = mm.filter (fun p => !(rest.contains p.1)) := by
          intro mm hmm
          refine List.filter_congr (fun p hp => ?_)
          have hpn : (p.1 == n) = false := by
            by_cases hbe : p.1 = n
            · exact absurd (hbe ▸ List.mem_map_of_mem Prod.fst hp) hmm
            · simpa using hbe
          rw [List.contains_cons, hpn]
          rfl
        rw [List.filter_append, List.filter_append, List.filter_cons]
        have hhd : (!((n :: rest).contains (n, v).1)) = false := by
          rw [List.contains_cons]
          simp
        rw [if_neg (by rw [hhd]; exact Bool.false_ne_true)]
        rw [hc1 m₁ hk1, hc1 m₂ hk2]
      rw [hfm, hext, List.flatten_cons]
      have hkeys : ((m₁ ++ m₂).map Prod.fst).Nodup := by
        refine List.Nodup.sublist (List.Sublist.map Prod.fst ?_) hndm
        exact List.Sublist.append (List.Sublist.refl m₁) (List.sublist_cons_self _ m₂)
      have hmem : ∀ k w, (k, w) ∈ m₁ ++ m₂ → (k, w) ∈ m₁ ++ (n, v) :: m₂ := by
        intro k w hm
        rcases List.mem_append.mp hm with hm | hm
        · exact List.mem_append_left _ hm
        · exact List.mem_append_right _ (List.mem_cons_of_mem _ hm)
      have ih := pick_extras_subperm valF outK outE rest (m₁ ++ m₂) hnd.2 hkeys
        (fun k w hm => hK k w (hmem k w hm)) (fun k w hm => hE k w (hmem k w hm))
      have hKv := hK n v (List.mem_append_right _ (List.mem_cons_self _ _))
      have hcomb := subperm_append hKv ih
      have hperm : (valF n v ++ (m₁ ++ m₂).flatMap (fun p => valF p.1 p.2)).Perm
          ((m₁ ++ (n, v) :: m₂).flatMap (fun p => valF p.1 p.2)) := by
        rw [List.flatMap_append, List.flatMap_append, List.flatMap_cons]
        have h1 := @List.perm_append_comm String (valF n v)
          (m₁.flatMap (fun p => valF p.1 p.2))
        have h2 := h1.append_right (m₂.flatMap (fun p => valF p.1 p.2))
        have h3 : valF n v ++ (m₁.flatMap (fun p => valF p.1 p.2)
              ++ m₂.flatMap (fun p => valF p.1 p.2))
            = (valF n v ++ m₁.flatMap (fun p => valF p.1 p.2))
              ++ m₂.flatMap (fun p => valF p.1 p.2) := by rw [List.append_assoc]
        have h4 : (m₁.flatMap (fun p => valF p.1 p.2) ++ valF n v)
              ++ m₂.flatMap (fun p => valF p.1 p.2)
            = m₁.flatMap (fun p => valF p.1 p.2)
              ++ (valF n v ++ m₂.flatMap (fun p => valF p.1 p.2)) := by
          rw [List.append_assoc]
        rw [h3, ← h4]
        exact h2
      have hfinal := hcomb.trans hperm.subperm
      rw [← List.append_assoc] at hfinal
      exact hfinal

theorem compSubs_subperm (sd : SecData) (hnd : (sd.sub_map.map Prod.fst).Nodup) :
    ((buildComponentsSubs sd).flatMap (fun ss => ss.articles.map Article.url)).Subperm
      (sd.sub_map.flatMap (fun q => q.2.map Article.url)) := by
  unfold buildComponentsSubs
  rw [List.flatMap_append]
  have h1 : (COMPONENTS_ORDER.filterMap (fun sub => (sd.sub_map.lookup sub).map
        (fun arts => SubSection.mk sub arts))).flatMap (fun ss => ss.articles.map Article.url)
      = (COMPONENTS_ORDER.filterMap (fun sub => (sd.sub_map.lookup sub).map
          (fun arts => arts.map Article.url))).flatten := by
    rw [flatMap_filterMap]
    refine congrArg _ (List.filterMap_congr (fun x _ => ?_))
    rw [Option.map_map]
    rfl
  have h2 : ((sd.sub_map.filter (fun p => !(COMPONENTS_ORDER.contains p.1))).map
        (fun p => SubSection.mk p.1 p.2)).flatMap (fun ss => ss.articles.map Article.url)
      = (sd.sub_map.filter (fun p => !(COMPONENTS_ORDER.contains p.1))).flatMap
          (fun q => q.2.map Article.url) := by
    rw [List.flatMap_map]
  rw [h1, h2]
  exact pick_extras_subperm (fun _ arts => arts.map Article.url)
    (fun _ arts => arts.map Article.url) (fun _ arts => arts.map Article.url)
    COMPONENTS_ORDER sd.sub_map (by decide) hnd
    (fun _ _ _ => List.Subperm.refl _) (fun _ _ _ => List.Subperm.refl _)

theorem buildSections_subperm (m : SectionsMap) (hnd : (m.map Prod.fst).Nodup)
    (hsub : ∀ p ∈ m, (p.2.sub_map.map Prod.fst).Nodup) :
    (treeUrls (buildSections m)).Subperm (mapUrls m) := by
  unfold buildSections treeUrls
  rw [List.flatMap_append]
  have h1 : (TOP_LEVEL_ORDER.filterMap (fun name => (m.lookup name).map (fun sd =>
        if name == "Components" then Sect.mk name sd.articles (buildComponentsSubs sd)
        else Sect.mk name sd.articles []))).flatMap (fun s => s.articles.map Article.url
          ++ s.sub_sections.flatMap (fun ss => ss.articles.map Article.url))
      = (TOP_LEVEL_ORDER.filterMap (fun name => (m.lookup name).map (fun sd =>
          (if name == "Components" then Sect.mk name sd.articles (buildComponentsSubs sd)
           else Sect.mk name sd.articles []).articles.map Article.url
          ++ (if name == "Components" then Sect.mk name sd.articles (buildComponentsSubs sd)
           else Sect.mk name sd.articles []).sub_sections.flatMap
              (fun ss => ss.articles.map Article.url)))).flatten := by
    rw [flatMap_filterMap]
    refine congrArg _ (List.filterMap_congr (fun x _ => ?_))
    rw [Option.map_map]
    rfl
  have h2 : ((m.filter (fun p => !(TOP_LEVEL_ORDER.contains p.1))).map (fun p =>
        Sect.mk p.1 p.2.articles (p.2.sub_map.map (fun q => SubSection.mk q.1 q.2)))).flatMap
          (fun s => s.articles.map Article.url
            ++ s.sub_sections.flatMap (fun ss => ss.articles.map Article.url))
      = (m.filter (fun p => !(TOP_LEVEL_ORDER.contains p.1))).flatMap (fun p =>
          p.2.articles.map Article.url
          ++ (p.2.sub_map.map (fun q => SubSection.mk q.1 q.2)).flatMap
              (fun ss => ss.articles.map Article.url)) := by
    rw [List.flatMap_map]
  rw [h1, h2]
  refine pick_extras_subperm (fun _ sd => secUrls sd)
    (fun name sd =>
      (if name == "Components" then Sect.mk name sd.articles (buildComponentsSubs sd)
       else Sect.mk name sd.articles []).articles.map Article.url
      ++ (if name == "Components" then Sect.mk name sd.articles (buildComponentsSubs sd)
       else Sect.mk name sd.articles []).sub_sections.flatMap
          (fun ss => ss.articles.map Article.url))
    (fun _ sd => sd.articles.map Article.url
      ++ (sd.sub_map.map (fun q => SubSection.mk q.1 q.2)).flatMap
          (fun ss => ss.articles.map Article.url))
    TOP_LEVEL_ORDER m (by decide) hnd ?_ ?_
  · intro k v hm
    dsimp only
    by_cases hk : (k == "Components") = true
    · rw [if_pos hk]
      show ((Sect.mk k v.articles (buildComponentsSubs v)).articles.map Article.url
        ++ (buildComponentsSubs v).flatMap (fun ss => ss.articles.map Article.url)).Subperm
          (secUrls v)
      exact subperm_append (List.Subperm.refl _) (compSubs_subperm v (hsub (k, v) hm))
    · rw [if_neg hk]
      show (v.articles.map Article.url ++ []).Subperm (secUrls v)
      rw [List.append_nil]
      exact (List.sublist_append_left _ _).subperm
  · intro k v _
    dsimp only
    show (v.articles.map Article.url
        ++ (v.sub_map.map (fun q => SubSection.mk q.1 q.2)).flatMap
            (fun ss => ss.articles.map Article.url)).Subperm (secUrls v)
    rw [List.flatMap_map]
    exact List.Subperm.refl _

/-- **C1** (confirmed).  (1) `run_pass` preserves the discovery-dedup
invariant: collected hrefs stay pairwise distinct (the first occurrence of an
href wins; later duplicates are dropped against `seen_hrefs`).  (2) For any
classification environment and *any* discovered-link list — deduplicated or
not — the assembled tree contains every article URL at most once: the
classification guard `seen_urls_for_classification` admits each full URL only
once, each admitted link is added to exactly one section or sub-section, and
the assembler emits each stored article at most once. -/
theorem C1_url_at_most_once :
    (∀ (env : NavEnv) (down : Bool) (n : Nat) (st : PassState),
        passInv st → passInv ((runPassAux env down n st).2))
    ∧ (∀ (env : ClassEnv) (links : List Link),
        (treeUrls (classify_and_assemble env links)).Nodup) := by
  refine ⟨fun env down n st h => runPassAux_inv env down n st h, ?_⟩
  intro env links
  have hstart : clsInv ([], ([] : SectionsMap)) := by
    unfold clsInv
    refine ⟨?_, ?_, ?_, ?_⟩ <;> simp [mapUrls]
  have hinv := classifyFold_inv env links ([], []) hstart
  unfold clsInv at hinv
  unfold classify_and_assemble
  have hsp := buildSections_subperm (links.foldl (classifyOne env) ([], [])).2
    hinv.2.2.1 hinv.2.2.2
  obtain ⟨l, hperm, hsl⟩ := hsp
  exact hperm.nodup (hsl.nodup hinv.1)

/-- Witness for `C1_url_at_most_once`: the concrete navigator run keeps its
hrefs distinct, and a link list containing the same link twice still yields a
tree with the url once. -/
theorem C1_check :
    passInv (mkPassState cexNavEnv true [] [])
    ∧ passInv ((runPassAux cexNavEnv true 400 (mkPassState cexNavEnv true [] [])).2)
    ∧ (treeUrls (classify_and_assemble noCtx [colorLink, colorLink])).Nodup := by
  have h0 : passInv (mkPassState cexNavEnv true [] []) := by
    unfold passInv mkPassState
    exact ⟨List.nodup_nil, by intro l hl; simp at hl⟩
  exact ⟨h0, C1_url_at_most_once.1 cexNavEnv true 400 _ h0,
    C1_url_at_most_once.2 noCtx [colorLink, colorLink]⟩

end HIG
